import Mathlib

/-!
Shallow embedding of `jsparagus/emit.py` (the code-generation backend of the
jsparagus parser generator) together with proofs about the claims of its
specification.

The embedding translates the Python source into executable Lean definitions:

* the identifier normalizer (`to_snek_case`, `to_camel_case`) including the
  two regular-expression substitutions of `to_snek_case`, modelled
  character-by-character with Python's `re.sub` semantics (leftmost,
  non-overlapping, greedy);
* the data model consumed by the emitters (terminals, nonterminals, states,
  productions, reduction expressions, grammar method signatures, types);
* the reduction-expression compilers of both backends;
* the type translator `type_to_rust`;
* both emitters (`write_python_parser` and `RustParserWriter.emit`) as pure
  functions from the input IR to the sequence of strings written to the
  output stream, with Python exceptions modelled as errors.

Functions from the Python standard library (`str.capitalize`, `str.islower`,
`str.split`, `str.partition`, `repr`, `unicodedata.name`) are modelled by
`py*` helpers that agree with Python on the ASCII inputs that occur here.
-/

/-- Python `str.capitalize()` on a list of characters: first character
uppercased, the rest lowercased (ASCII). -/
def pyCapitalize : List Char → List Char
  | [] => []
  | c :: cs => c.toUpper :: cs.map Char.toLower

/-- Python `str.islower()` on a list of characters (ASCII approximation):
true iff the string has at least one cased character and no uppercase
character. -/
def pyIsLower (l : List Char) : Bool :=
  (l.any fun c => c.isLower || c.isUpper) && (l.all fun c => !c.isUpper)

/-- Python `str.isupper()` on a list of characters (ASCII approximation). -/
def pyIsUpper (l : List Char) : Bool :=
  (l.any fun c => c.isLower || c.isUpper) && (l.all fun c => !c.isLower)

/-- Python `str.isalpha()` on a list of characters (ASCII approximation). -/
def pyIsAlpha (l : List Char) : Bool :=
  (!l.isEmpty) && l.all Char.isAlpha

/-- Python `str.split(sep)` for a one-character separator: splits at every
occurrence of the separator, keeping empty pieces.  Always returns a
nonempty list of pieces. -/
def pySplit (sep : Char) : List Char → List (List Char)
  | [] => [[]]
  | c :: cs =>
    match pySplit sep cs with
    | [] => [[]]
    | r :: rs => if c = sep then [] :: r :: rs else (c :: r) :: rs

/-- Python `str.partition(sep)` for a one-character separator: the part
before the first occurrence, whether the separator occurred, and the part
after it. -/
def pyPartition (sep : Char) : List Char → List Char × Bool × List Char
  | [] => ([], false, [])
  | c :: cs =>
    if c = sep then ([], true, cs)
    else
      let r := pyPartition sep cs
      (c :: r.1, r.2.1, r.2.2)

/-- Python `str.replace(old, new)` for one-character `old` and a string
`new` (used for `tag.replace(' ', '_P')`). -/
def pyReplaceChar (old : Char) (new : List Char) : List Char → List Char
  | [] => []
  | c :: cs =>
    if c = old then new ++ pyReplaceChar old new cs
    else c :: pyReplaceChar old new cs

/-- First substitution of `RustParserWriter.to_snek_case`:
`re.sub('(.)([A-Z][a-z]+)', r'\1_\2', ident)`.  A match is any character
other than a newline followed by an uppercase letter followed by a
greedily-maximal nonempty run of lowercase letters; an underscore is
inserted between the first character and the uppercase letter, and
scanning resumes after the match (Python `re.sub` semantics). -/
def snekSub1 : List Char → List Char
  | [] => []
  | [c] => [c]
  | [c, d] => [c, d]
  | c :: d :: e :: rest =>
    if c ≠ '\n' ∧ d.isUpper ∧ e.isLower then
      c :: '_' :: d ::
        ((e :: rest).takeWhile Char.isLower ++ snekSub1 ((e :: rest).dropWhile Char.isLower))
    else
      c :: snekSub1 (d :: e :: rest)
termination_by l => l.length
decreasing_by
  · simp only [List.length_cons]
    have h := (List.dropWhile_sublist Char.isLower (l := e :: rest)).length_le
    simp only [List.length_cons] at h
    omega
  · simp only [List.length_cons]
    omega

/-- Second substitution of `RustParserWriter.to_snek_case`:
`re.sub('([a-z0-9])([A-Z])', r'\1_\2', s1)`.  A match is a lowercase letter
or digit followed by an uppercase letter; an underscore is inserted
between them and scanning resumes after the match. -/
def snekSub2 : List Char → List Char
  | [] => []
  | [c] => [c]
  | c :: d :: rest =>
    if (c.isLower || c.isDigit) ∧ d.isUpper then
      c :: '_' :: d :: snekSub2 rest
    else
      c :: snekSub2 (d :: rest)
termination_by l => l.length
decreasing_by
  · simp only [List.length_cons]; omega
  · simp only [List.length_cons]; omega

/-- `RustParserWriter.to_snek_case`: the two substitutions followed by
`str.lower()`. -/
def to_snek_case (ident : String) : String :=
  ⟨(snekSub2 (snekSub1 ident.data)).map Char.toLower⟩

/-- Character-level body of `RustParserWriter.to_camel_case`. -/
def camelChars (l : List Char) : List Char :=
  if '_' ∈ l then
    ((pySplit '_' l).map pyCapitalize).flatten
  else if pyIsLower l then
    pyCapitalize l
  else
    l

/-- `RustParserWriter.to_camel_case`: if the identifier contains an
underscore, capitalize each underscore-separated word and concatenate;
otherwise capitalize an all-lowercase identifier and pass anything else
through unchanged. -/
def to_camel_case (ident : String) : String :=
  ⟨camelChars ident.data⟩

/-- First-appearance deduplication with an accumulator of already-seen
elements: the embedding of `jsparagus.ordered.OrderedSet` as used by the
Rust emitter (iteration over an `OrderedSet` yields each distinct element
once, in order of first insertion). -/
def orderedDedupAux [DecidableEq α] (seen : List α) : List α → List α
  | [] => []
  | x :: xs =>
    if x ∈ seen then orderedDedupAux seen xs
    else x :: orderedDedupAux (x :: seen) xs

/-- `OrderedSet(iterable)` turned into a list: each distinct element once,
in first-appearance order. -/
def orderedDedup [DecidableEq α] (l : List α) : List α :=
  orderedDedupAux [] l

/-- A terminal as it appears in action rows: `None` (end of input), the
`ErrorToken` sentinel, or a literal string. -/
inductive Term
  | endT
  | errorTok
  | lit (s : String)
deriving DecidableEq, Repr

/-- The name of a nonterminal: either a plain string or an `InitNt`
wrapper marking the synthetic goal nonterminal for a goal. -/
inductive NtName
  | plain (s : String)
  | init (goal : String)
deriving DecidableEq, Repr

/-- A `jsparagus.grammar.Nt` value: a name plus bound arguments; each
argument is a pair of an argument name and its (truthiness of its) bound
value. -/
structure NtObj where
  name : NtName
  args : List (String × Bool)
deriving DecidableEq, Repr

/-- A key of a goto row or of `grammar.nonterminals`: either an `Nt`
object or a plain string (the grammar dictionaries may use either). -/
inductive GSym
  | obj (o : NtObj)
  | str (s : String)
deriving DecidableEq, Repr

/-- A jsparagus type (`jsparagus.types.Type`): a name with type
arguments.  Modelled from the spec: the module `types.py` is not part of
the shown source; per the spec the algebra is `Unit`, `Token`,
`Option<T>`, `Vec<T>` and named nonterminal types, all represented by the
code as a name plus argument list compared structurally. -/
inductive Ty
  | mk (name : String) (args : List Ty)

/-- The name component of a type. -/
def Ty.name : Ty → String
  | .mk n _ => n

/-- The argument list of a type. -/
def Ty.args : Ty → List Ty
  | .mk _ a => a

/-- `types.UnitType`. -/
def unitTy : Ty := .mk "Unit" []

/-- `types.TokenType`. -/
def tokenTy : Ty := .mk "Token" []

/-- Structural equality test against `types.UnitType` (`ty == types.UnitType`). -/
def Ty.isUnit : Ty → Bool
  | .mk n a => n == "Unit" && a.isEmpty

/-- Structural equality test against `types.TokenType` (`ty == types.TokenType`). -/
def Ty.isToken : Ty → Bool
  | .mk n a => n == "Token" && a.isEmpty

/-- A right-hand-side element of a production: a literal string (terminal
or string-keyed nonterminal), an `Nt` object, an `Optional` wrapper, or a
non-concrete marker (lookahead restrictions and similar). -/
inductive Element
  | term (s : String)
  | nt (o : NtObj)
  | opt (inner : Element)
  | lookahead

/-- Modelled from the spec: `grammar.is_concrete_element` is not part of
the shown source.  A concrete element consumes one parser stack value;
per the spec's data model and end-to-end scenario A (where a constant
terminal's slot is popped and discarded), terminals, nonterminals and
optional elements are concrete while lookahead restrictions are not. -/
def is_concrete_element : Element → Bool
  | .lookahead => false
  | _ => true

/-- A reduction expression: a method call (`CallMethod`), an optional
wrapper (`Some`), `None`, or an integer reference to a concrete
right-hand-side slot. -/
inductive RExpr
  | callMethod (method : String) (args : List RExpr)
  | someExpr (inner : RExpr)
  | noneExpr
  | slot (i : Nat)

/-- A method signature in `grammar.methods`. -/
structure MethodType where
  argument_types : List Ty
  return_type : Ty

/-- The grammar metadata consumed by the emitters: the declared
nonterminals (an insertion-ordered mapping from key to the optional
declared result type), the set of variable terminals (terminals carrying
a scanned value), and the method signature table in declaration order. -/
structure Grammar where
  nonterminals : List (GSym × Option Ty)
  variable_terminals : List String
  methods : List (String × MethodType)

/-- One parser state: its action row and goto row as insertion-ordered
mappings, its optional error code, and the diagnostic traceback string
(`state.traceback()` is modelled as stored data; it is used only inside
comments). -/
structure State where
  action_row : List (Term × Int)
  ctn_row : List (GSym × Nat)
  error_code : Option String
  traceback : Option String

/-- A production: owning nonterminal, right-hand side, and reduction
expression. -/
structure Production where
  nt : NtObj
  rhs : List Element
  reducer : RExpr

/-- The full IR input of the emitters (`ParserStates`). -/
structure ParserStates where
  grammar : Grammar
  states : List State
  prods : List Production
  init_state_map : List (NtObj × Nat)

/-- Ordered-dictionary lookup on an association list. -/
def alookup [DecidableEq κ] (k : κ) : List (κ × β) → Option β
  | [] => none
  | (k', v) :: rest => if k' = k then some v else alookup k rest

/-- Modelled from the spec: `Nt.pretty` of `grammar.py` (not part of the
shown source), the display name of a nonterminal used by the interpreted
emitter and in diagnostics. -/
def ntPretty (o : NtObj) : String :=
  match o.name with
  | .plain s =>
    if o.args.isEmpty then s
    else s ++ "[" ++ String.intercalate ", " (o.args.map Prod.fst) ++ "]"
  | .init g => "Init(" ++ g ++ ")"

/-- Display form of a goto-row key, used in error messages. -/
def gsymToStr : GSym → String
  | .obj o => ntPretty o
  | .str s => s

/-- `RustParserWriter.nonterminal_to_snake`: for an `Nt` object, the snake
form of its base name with one `_`-joined snake segment per truthy bound
argument; for a plain string, its snake form.  Calling `to_snek_case` on
an `InitNt` name object would raise a `TypeError` in Python (`re.sub`
requires a string); this is modelled as an error. -/
def nonterminal_to_snake : GSym → Except String String
  | .obj o =>
    match o.name with
    | .plain s =>
      Except.ok (to_snek_case s ++
        String.join (o.args.filterMap fun a =>
          if a.2 then some ("_" ++ to_snek_case a.1) else none))
    | .init _ => Except.error "TypeError: expected string or bytes-like object"
  | .str s => Except.ok (to_snek_case s)

/-- `RustParserWriter.nonterminal_to_camel`: camel form of the snake name. -/
def nonterminal_to_camel (nt : GSym) : Except String String :=
  (nonterminal_to_snake nt).map to_camel_case

/-- Loop body of `RustParserWriter.check_camel_case`: walk the
nonterminals, remembering each camel-case spelling; two distinct
nonterminals with the same camel spelling raise a `ValueError`. -/
def check_camel_case_aux (seen : List (String × GSym)) : List GSym → Except String Unit
  | [] => Except.ok ()
  | nt :: rest => do
    let cc ← nonterminal_to_camel nt
    match alookup cc seen with
    | some prev =>
      Except.error ("ValueError: " ++ gsymToStr prev ++ " and " ++ gsymToStr nt ++
        " have the same camel-case spelling (" ++ cc ++ ")")
    | none => check_camel_case_aux ((cc, nt) :: seen) rest

/-- `RustParserWriter.check_camel_case` over a nonterminal list. -/
def check_camel_case (nts : List GSym) : Except String Unit :=
  check_camel_case_aux [] nts

/-- The manual override table `TERMINAL_NAMES`. -/
def TERMINAL_NAMES : List (String × String) := [("=>", "Arrow")]

/-- Modelled from the spec: `unicodedata.name` from the Python standard
library (not part of the repository), restricted to the characters used
by punctuation terminals; the spec says punctuation terminals spell out
each character's canonical Unicode name.  A small table with a fallback. -/
def unicodedataName (c : Char) : String :=
  match c with
  | '+' => "PLUS SIGN"
  | '-' => "HYPHEN-MINUS"
  | '*' => "ASTERISK"
  | '/' => "SOLIDUS"
  | '=' => "EQUALS SIGN"
  | '<' => "LESS-THAN SIGN"
  | '>' => "GREATER-THAN SIGN"
  | '(' => "LEFT PARENTHESIS"
  | ')' => "RIGHT PARENTHESIS"
  | '\x7b' => "LEFT CURLY BRACKET"
  | '\x7d' => "RIGHT CURLY BRACKET"
  | '[' => "LEFT SQUARE BRACKET"
  | ']' => "RIGHT SQUARE BRACKET"
  | ';' => "SEMICOLON"
  | ',' => "COMMA"
  | '.' => "FULL STOP"
  | '!' => "EXCLAMATION MARK"
  | '?' => "QUESTION MARK"
  | ':' => "COLON"
  | '&' => "AMPERSAND"
  | '|' => "VERTICAL LINE"
  | '^' => "CIRCUMFLEX ACCENT"
  | '%' => "PERCENT SIGN"
  | '~' => "TILDE"
  | _ => "UNKNOWN CHARACTER"

/-- `RustParserWriter.terminal_name`: the display name of a terminal.
`None` is `End`, the error token is `ErrorToken`, the override table is
consulted, alphabetic terminals are capitalized if lowercase, and other
terminals spell out each character's Unicode name, snake-case it, and
camel-case the result. -/
def terminal_name (value : Term) : String :=
  match value with
  | .endT => "End"
  | .errorTok => "ErrorToken"
  | .lit v =>
    match alookup v TERMINAL_NAMES with
    | some n => n
    | none =>
      if pyIsAlpha v.data then
        if pyIsLower v.data then ⟨pyCapitalize v.data⟩ else v
      else
        let raw_name := String.intercalate " " (v.data.map unicodedataName)
        let snake_case : String :=
          ⟨((raw_name.data.map fun c => if c = '-' then ' ' else c).map fun c =>
              if c = ' ' then '_' else c).map Char.toLower⟩
        to_camel_case snake_case

/-- `RustParserWriter.terminal_name_camel`. -/
def terminal_name_camel (value : Term) : String :=
  to_camel_case (terminal_name value)

/-- `RustParserWriter.method_name_to_rust`: split the method tag on the
first space into nonterminal name and disambiguator; the Rust name is the
snake form of the nonterminal name with `_p<N>` appended when a
disambiguator is present. -/
def method_name_to_rust (name : String) : String :=
  let p := pyPartition ' ' name.data
  let base := to_snek_case ⟨p.1⟩
  if p.2.1 then base ++ "_p" ++ (⟨p.2.2⟩ : String) else base

/-- The fixed allow-list `FALLIBLE_METHOD_NAMES` of output methods whose
calls are suffixed with `?` in the compiled target. -/
def FALLIBLE_METHOD_NAMES : List String :=
  [ "assignment_expression",
    "compound_assignment_expression",
    "expression_to_parameter_list",
    "for_assignment_target",
    "for_await_of_statement",
    "post_decrement_expr",
    "post_increment_expr",
    "pre_decrement_expr",
    "pre_increment_expr" ]

/-- The arena-box wrapper applied by `type_to_rust` when boxing is
requested. -/
def rustBox (boxed : Bool) (rty : String) : String :=
  if boxed then "Box<'alloc, " ++ rty ++ ">" else rty

/-- `RustParserWriter.type_to_rust`: translate a jsparagus type to Rust
syntax.  `Unit` is never boxed (the Python code asserts this; the failed
assertion is modelled as an error).  `Option` pushes the requested boxing
into its argument and returns early, bypassing the outer box.  `Vec`
translates its argument unboxed.  Other types become a namespace-qualified
path with translated arguments (each receiving the same boxing request),
and the requested box is applied outermost. -/
def type_to_rust (ty : Ty) (ns : String) (boxed : Bool) : Except String String :=
  if ty.isUnit then
    if boxed then Except.error "assert not boxed" else Except.ok "()"
  else if ty.isToken then
    Except.ok (rustBox boxed "Token<'alloc>")
  else
    match ty with
    | .mk "Option" [arg] =>
      (type_to_rust arg ns boxed).map fun s => "Option<" ++ s ++ ">"
    | .mk "Vec" [arg] =>
      (type_to_rust arg ns false).map fun s => rustBox boxed ("Vec<'alloc, " ++ s ++ ">")
    | .mk name args =>
      let base := if ns = "" then name else ns ++ "::" ++ name
      if args.isEmpty then
        Except.ok (rustBox boxed base)
      else do
        let ss ← args.attach.mapM fun a => type_to_rust a.1 ns boxed
        Except.ok (rustBox boxed (base ++ "<" ++ String.intercalate ", " ss ++ ">"))
termination_by sizeOf ty
decreasing_by
  · simp only [Ty.mk.sizeOf_spec, List.cons.sizeOf_spec, List.nil.sizeOf_spec]
    omega
  · simp only [Ty.mk.sizeOf_spec, List.cons.sizeOf_spec, List.nil.sizeOf_spec]
    omega
  · have h := List.sizeOf_lt_of_mem a.2
    simp only [Ty.mk.sizeOf_spec]
    omega

/-- Lookup in `grammar.nonterminals`. -/
def ntLookup (g : Grammar) (k : GSym) : Option (Option Ty) :=
  alookup k g.nonterminals

/-- `RustParserWriter.element_type`: the jsparagus type of a right-hand-side
element.  The string branch for a string that is a grammar nonterminal and
the `Optional` branch reference names (`nt_types`, `element_type`, `Type`)
that are not defined in the method's scope in the source; executing them
raises a `NameError`, modelled as errors.  A constant terminal has type
`Unit`; a variable terminal has type `Token`; an `Nt` element's declared
type is looked up under the `Nt` key or, failing that, its name. -/
def element_type (g : Grammar) : Element → Except String Ty
  | .term s =>
    if (ntLookup g (.str s)).isSome then
      Except.error "NameError: name nt_types is not defined"
    else if s ∈ g.variable_terminals then
      Except.ok tokenTy
    else
      Except.ok unitTy
  | .opt _ => Except.error "NameError: name element_type is not defined"
  | .nt o =>
    match ntLookup g (.obj o) with
    | some (some t) => Except.ok t
    | some none => Except.error "assert: nonterminal type is None"
    | none =>
      match o.name with
      | .plain s =>
        match ntLookup g (.str s) with
        | some (some t) => Except.ok t
        | some none => Except.error "assert: nonterminal type is None"
        | none => Except.error "KeyError: nonterminal"
      | .init _ => Except.error "KeyError: nonterminal"
  | .lookahead => Except.error "assert False: unexpected element type"

/-- Python method name used by the interpreted emitter:
`expr.method.replace(' ', '_P')`. -/
def pyMethodName (tag : String) : String :=
  ⟨pyReplaceChar ' ' ['_', 'P'] tag.data⟩

/-- `compile_reduce_expr` of `write_python_parser`: compile a reduction
expression to a Python expression.  A method call compiles every argument
(the grammar signature is not consulted); a `Some` wrapper compiles to the
compilation of its inner expression (the interpreted target represents an
optional value by the value itself, absence by `None`); `None` compiles to
`None`; slot `i` compiles to the parameter `xi`. -/
def pyCompileReduceExpr : RExpr → String
  | .callMethod m args =>
    "builder." ++ pyMethodName m ++ "(" ++
      String.intercalate ", " (args.attach.map fun a => pyCompileReduceExpr a.1) ++ ")"
  | .someExpr e => pyCompileReduceExpr e
  | .noneExpr => "None"
  | .slot i => "x" ++ toString i
termination_by e => sizeOf e
decreasing_by
  · have h := List.sizeOf_lt_of_mem a.2
    simp only [RExpr.callMethod.sizeOf_spec]
    omega
  · simp only [RExpr.someExpr.sizeOf_spec]
    omega

/-- `compile_reduce_expr` of `RustParserWriter.reduce`: compile a reduction
expression to a Rust expression, also recording which stack slots are
referenced (the source records this by mutating the `variable_used` array
of length `nvars`; an out-of-range slot reference raises an `IndexError`).
A method call looks up the tag's signature (a missing tag raises a
`KeyError`), asserts the arity matches, and compiles exactly the arguments
whose declared parameter type is not `Unit`; the call is suffixed with `?`
when the Rust method name is on the fallible allow-list. -/
def rustCompileReduceExpr (g : Grammar) (nvars : Nat) : RExpr → Except String (String × List Nat)
  | .callMethod m args => do
    let mt ← match alookup m g.methods with
      | some mt => Except.ok mt
      | none => Except.error ("KeyError: " ++ m)
    let name := method_name_to_rust m
    if mt.argument_types.length = args.length then do
      let kept := (mt.argument_types.zip args).filter fun p => !p.1.isUnit
      let rs ← kept.attach.mapM fun p => rustCompileReduceExpr g nvars p.1.2
      let call := "handler." ++ name ++ "(" ++
        String.intercalate ", " (rs.map Prod.fst) ++ ")"
      Except.ok
        (if name ∈ FALLIBLE_METHOD_NAMES then call ++ "?" else call,
         (rs.map Prod.snd).flatten)
    else
      Except.error "assert: argument arity mismatch"
  | .someExpr e => do
    let r ← rustCompileReduceExpr g nvars e
    Except.ok ("Some(" ++ r.1 ++ ")", r.2)
  | .noneExpr => Except.ok ("None", [])
  | .slot i =>
    if i < nvars then Except.ok ("x" ++ toString i, [i])
    else Except.error "IndexError: variable_used index out of range"
termination_by e => sizeOf e
decreasing_by
  · obtain ⟨⟨t, e⟩, hp⟩ := p
    have hm := List.mem_filter.mp hp
    have hz := List.of_mem_zip hm.1
    have h := List.sizeOf_lt_of_mem hz.2
    simp only [RExpr.callMethod.sizeOf_spec]
    simp only [Prod.mk.sizeOf_spec] at h ⊢
    omega
  · simp only [RExpr.someExpr.sizeOf_spec]
    omega

/-- One line of emitter output: `RustParserWriter.write` prepends four
spaces per indentation level. -/
def ind (indentation : Nat) (s : String) : String :=
  String.join (List.replicate indentation "    ") ++ s

/-- Modelled from the spec: `Grammar.production_to_str` of `grammar.py`
(not part of the shown source); a human-readable rendering of a production
used only inside generated comments. -/
def production_to_str (p : Production) : String :=
  let elemStr : Element → String := fun e =>
    match e with
    | .term s => s
    | .nt o => ntPretty o
    | .opt _ => "Optional(...)"
    | .lookahead => "[lookahead]"
  ntPretty p.nt ++ " ::= " ++ String.intercalate " " (p.rhs.map elemStr)

/-- The body of one `match` arm of the generated `reduce` function
(`RustParserWriter.reduce`, loop body for production index `i`): the
compiled reduction expression is computed first (errors there abort the
arm), then for a non-trivial reduction one pop per concrete element is
emitted in reverse order — referenced slots are downcast to their boxed
Rust type unless the reduction is discarding, unreferenced slots are
popped and dropped — followed by the push of the result, and finally the
`Ok` line naming the reduced nonterminal. -/
def rustReduceCase (g : Grammar) (i : Nat) (prod : Production) : Except String (List String) := do
  let elements := prod.rhs.filter is_concrete_element
  let isTrivialReduction :=
    elements.length == 1 &&
      (match prod.reducer with | .slot 0 => true | _ => false)
  let isDiscardingReduction :=
    match prod.reducer with | .slot _ => true | _ => false
  let r ← rustCompileReduceExpr g elements.length prod.reducer
  let compiledExpr := r.1
  let used := r.2
  let body ←
    if isTrivialReduction then
      pure ([] : List String)
    else do
      let popLines ← elements.enum.reverse.mapM fun ie =>
        if used.contains ie.1 then do
          let ty ← element_type g ie.2
          let rustTy ← type_to_rust ty "" true
          if isDiscardingReduction then
            pure (ind 3 ("let x" ++ toString ie.1 ++ " = stack.pop().unwrap();"))
          else
            pure (ind 3 ("let x" ++ toString ie.1 ++ ": " ++ rustTy ++
              " = stack.pop().unwrap().to_ast();"))
        else
          pure (ind 3 "stack.pop();")
      let pushLine :=
        if isDiscardingReduction then
          ind 3 ("stack.push(" ++ compiledExpr ++ ");")
        else
          ind 3 ("stack.push(TryIntoStack::try_into_stack(" ++ compiledExpr ++ ")?);")
      pure (popLines ++ [pushLine])
  let camel ← nonterminal_to_camel (.obj prod.nt)
  Except.ok
    ([ind 2 (toString i ++ " => \x7b"), ind 3 ("// " ++ production_to_str prod)] ++
      body ++
      [ind 3 ("Ok(NonterminalId::" ++ camel ++ ")"), ind 2 "\x7d"])

/-- Python `repr` of a quote-free string (modelled; the strings occurring
here contain no quotes or escapes). -/
def pyReprStr (s : String) : String := "'" ++ s ++ "'"

/-- Python `repr` of a terminal value: `None`, the `ErrorToken` sentinel
(whose `repr` is modelled from the spec as its name; `runtime.py` is not
part of the shown source), or a quoted string. -/
def pyReprTerm : Term → String
  | .endT => "None"
  | .errorTok => "ErrorToken"
  | .lit s => pyReprStr s

/-- Python `repr` of an optional string. -/
def pyReprOpt : Option String → String
  | none => "None"
  | some s => pyReprStr s

/-- `state.traceback() or "<empty>"`: the stored traceback, with `None`
and the empty string replaced by `<empty>`. -/
def tracebackOr (st : State) : String :=
  match st.traceback with
  | none => "<empty>"
  | some s => if s = "" then "<empty>" else s

/-- Modelled from the spec: the numeric error sentinel `ERROR` imported
from the runtime module (not part of the shown source), as rendered by
Python's `hex()`. -/
def ERROR_HEX : String := "-0x8000000000000000"

/-- The terminals of the Rust emitter: every terminal appearing in any
state's action row, in first-appearance order (`OrderedSet`). -/
def rustTerminals (ps : ParserStates) : List Term :=
  orderedDedup ((ps.states.map fun st => st.action_row.map Prod.fst).flatten)

/-- The nonterminals of the Rust emitter: every nonterminal appearing in
any state's goto row, in first-appearance order (`OrderedSet`). -/
def rustNonterminals (ps : ParserStates) : List GSym :=
  orderedDedup ((ps.states.map fun st => st.ctn_row.map Prod.fst).flatten)

/-- `RustParserWriter.header`. -/
def rustHeaderLines : List String :=
  [ "// WARNING: This file is autogenerated.",
    "",
    "use ast::\x7barena::\x7bBox, Vec\x7d, types::*\x7d;",
    "use crate::ast_builder::AstBuilder;",
    "use crate::stack_value_generated::\x7bStackValue, TryIntoStack\x7d;",
    "use crate::error::Result;",
    "",
    "const ERROR: i64 = " ++ ERROR_HEX ++ ";",
    "" ]

/-- `RustParserWriter.terminal_id`: the `TerminalId` enum. -/
def rustTerminalIdLines (ps : ParserStates) : List String :=
  [ "#[derive(Copy, Clone, Debug, PartialEq)]",
    "pub enum TerminalId \x7b" ] ++
  ((rustTerminals ps).enum.map fun it =>
    ind 1 (terminal_name it.2 ++ " = " ++ toString it.1 ++ ", // " ++ pyReprTerm it.2)) ++
  [ "\x7d", "" ]

/-- `RustParserWriter.token`: the `Token` struct and its `impl`, fixed
text. -/
def rustTokenLines : List String :=
  [ "#[derive(Clone, Debug, PartialEq)]",
    "pub struct Token<'a> \x7b",
    ind 1 "pub terminal_id: TerminalId,",
    ind 1 "pub saw_newline: bool,",
    ind 1 "pub value: Option<&'a str>,",
    "\x7d",
    "",
    "impl Token<'_> \x7b",
    ind 1 "pub fn basic_token(terminal_id: TerminalId) -> Self \x7b",
    ind 2 "Self \x7b",
    ind 3 "terminal_id,",
    ind 3 "saw_newline: false,",
    ind 3 "value: None,",
    ind 2 "\x7d",
    ind 1 "\x7d",
    "",
    ind 1 "pub fn into_static(self) -> Token<'static> \x7b",
    ind 2 "Token \x7b",
    ind 3 "terminal_id: self.terminal_id,",
    ind 3 "saw_newline: self.saw_newline,",
    ind 3 "value: None,",
    ind 2 "\x7d",
    ind 1 "\x7d",
    "\x7d",
    "" ]

/-- One cell of the flat action table: the action for terminal `t`, or
the `ERROR` sentinel when the action row has no entry. -/
def rustActionCell (st : State) (t : Term) : String :=
  match alookup t st.action_row with
  | some v => toString v
  | none => "ERROR"

/-- `RustParserWriter.actions`: the flat `ACTIONS` table, one row per
state in terminal order, with a traceback comment per state and a blank
line between states. -/
def rustActionsLines (ps : ParserStates) : List String :=
  [ "#[rustfmt::skip]",
    "static ACTIONS: [i64; " ++
      toString (ps.states.length * (rustTerminals ps).length) ++ "] = [" ] ++
  (ps.states.enum.map fun ist =>
    [ ind 1 ("// " ++ toString ist.1 ++ ". " ++ tracebackOr ist.2),
      ind 1 (String.intercalate " "
        ((rustTerminals ps).map fun t => rustActionCell ist.2 t ++ ",")) ] ++
    (if ist.1 < ps.states.length - 1 then [""] else [])).flatten ++
  [ "];", "" ]

/-- `RustParserWriter.error_codes`: the `ErrorCode` enum over the distinct
non-null error codes (first-appearance order) and the parallel
`STATE_TO_ERROR_CODE` table. -/
def rustErrorCodesLines (ps : ParserStates) : List String :=
  [ "#[derive(Clone, Debug, PartialEq)]",
    "pub enum ErrorCode \x7b" ] ++
  ((orderedDedup (ps.states.map State.error_code)).filterMap fun ec =>
    match ec with
    | none => none
    | some c => some (ind 1 (to_camel_case c ++ ","))) ++
  [ "\x7d", "",
    "static STATE_TO_ERROR_CODE: [Option<ErrorCode>; " ++
      toString ps.states.length ++ "] = [" ] ++
  (ps.states.enum.map fun ist =>
    [ ind 1 ("// " ++ toString ist.1 ++ ". " ++ tracebackOr ist.2),
      match ist.2.error_code with
      | none => ind 1 "None,"
      | some c => ind 1 ("Some(ErrorCode::" ++ to_camel_case c ++ "),") ]).flatten ++
  [ "];", "" ]

/-- `RustParserWriter.nonterminal_id`: the `NonterminalId` enum (camel
names can fail on non-string nonterminal names). -/
def rustNonterminalIdLines (ps : ParserStates) : Except String (List String) := do
  let vs ← (rustNonterminals ps).enum.mapM fun int => do
    let cc ← nonterminal_to_camel int.2
    pure (ind 1 (cc ++ " = " ++ toString int.1 ++ ","))
  Except.ok
    ([ "#[derive(Clone, Copy, Debug, PartialEq)]", "pub enum NonterminalId \x7b" ] ++
      vs ++ [ "\x7d", "" ])

/-- `RustParserWriter.goto`: the flat `GOTO` table, one row per state in
nonterminal order, 0 for absent entries. -/
def rustGotoLines (ps : ParserStates) : List String :=
  [ "#[rustfmt::skip]",
    "static GOTO: [u16; " ++
      toString (ps.states.length * (rustNonterminals ps).length) ++ "] = [" ] ++
  (ps.states.map fun st =>
    ind 1 (String.intercalate " "
      ((rustNonterminals ps).map fun nt =>
        toString ((alookup nt st.ctn_row).getD 0) ++ ","))) ++
  [ "];", "" ]

/-- `RustParserWriter.reduce`: the generated `reduce` dispatcher.  One
match arm per production whose nonterminal appears in some goto row
(goal-only productions are only accepted, never reduced), dispatching on
the production index. -/
def rustReduceLines (ps : ParserStates) : Except String (List String) := do
  let nts := rustNonterminals ps
  let cases ← ps.prods.enum.mapM fun ip =>
    if GSym.obj ip.2.nt ∈ nts then
      rustReduceCase ps.grammar ip.1 ip.2
    else
      pure []
  Except.ok
    ([ "pub fn reduce<'alloc>(",
       ind 1 "handler: &AstBuilder<'alloc>,",
       ind 1 "prod: usize,",
       ind 1 "stack: &mut std::vec::Vec<StackValue<'alloc>>,",
       ") -> Result<'alloc, NonterminalId> \x7b",
       ind 1 "match prod \x7b" ] ++
      cases.flatten ++
      [ ind 2 "_ => panic!(\"no such production: \x7b\x7d\", prod),",
        ind 1 "\x7d",
        "\x7d",
        "" ])

/-- `RustParserWriter.reduce_simulator`: the `(arity, nonterminal)` table
over the productions whose nonterminal is live. -/
def rustReduceSimulatorLines (ps : ParserStates) : Except String (List String) := do
  let nts := rustNonterminals ps
  let prods := ps.prods.filter fun p => GSym.obj p.nt ∈ nts
  let rows ← prods.mapM fun p => do
    let cc ← nonterminal_to_camel (.obj p.nt)
    pure (ind 1 ("(" ++ toString (p.rhs.filter is_concrete_element).length ++
      ", NonterminalId::" ++ cc ++ "),"))
  Except.ok
    ([ "static REDUCE_SIMULATOR: [(usize, NonterminalId); " ++
        toString prods.length ++ "] = [" ] ++
      rows ++ [ "];", "" ])

/-- Python `str.upper()` (ASCII). -/
def pyUpper (s : String) : String := ⟨s.data.map Char.toUpper⟩

/-- `RustParserWriter.entry`: the `ParserTables` struct, its
self-consistency check, the packaged `TABLES` value and one
`START_STATE_*` constant per goal nonterminal (whose argument list the
source asserts to be empty, and whose name must be a plain string for
`to_snek_case`). -/
def rustEntryLines (ps : ParserStates) : Except String (List String) := do
  let starts ← ps.init_state_map.mapM fun ii => do
    if ii.1.args = [] then
      match ii.1.name with
      | .plain s =>
        Except.ok
          [ "pub static START_STATE_" ++ pyUpper (to_snek_case s) ++ ": usize = " ++
              toString ii.2 ++ ";",
            "" ]
      | .init _ => Except.error "TypeError: expected string or bytes-like object"
    else
      Except.error "assert: init_nt.args == ()"
  Except.ok
    ([ "#[derive(Clone, Copy)]",
       "pub struct ParserTables<'a> \x7b",
       ind 1 "pub state_count: usize,",
       ind 1 "pub action_table: &'a [i64],",
       ind 1 "pub action_width: usize,",
       ind 1 "pub error_codes: &'a [Option<ErrorCode>],",
       ind 1 "pub reduce_simulator: &'a [(usize, NonterminalId)],",
       ind 1 "pub goto_table: &'a [u16],",
       ind 1 "pub goto_width: usize,",
       "\x7d",
       "",
       "impl<'a> ParserTables<'a> \x7b",
       ind 1 "pub fn check(&self) \x7b",
       ind 2 "assert_eq!(",
       ind 3 "self.action_table.len(),",
       ind 3 "(self.state_count * self.action_width) as usize",
       ind 2 ");",
       ind 2 "assert_eq!(self.goto_table.len(), (self.state_count * self.goto_width) as usize);",
       ind 1 "\x7d",
       "\x7d",
       "",
       "pub static TABLES: ParserTables<'static> = ParserTables \x7b",
       ind 1 ("state_count: " ++ toString ps.states.length ++ ","),
       ind 1 "action_table: &ACTIONS,",
       ind 1 ("action_width: " ++ toString (rustTerminals ps).length ++ ","),
       ind 1 "error_codes: &STATE_TO_ERROR_CODE,",
       ind 1 "reduce_simulator: &REDUCE_SIMULATOR,",
       ind 1 "goto_table: &GOTO,",
       ind 1 ("goto_width: " ++ toString (rustNonterminals ps).length ++ ","),
       "\x7d;",
       "" ] ++
      starts.flatten)

/-- The sections of `RustParserWriter.emit` written before
`check_camel_case` runs: header, terminal enum, token type, actions table
and error codes. -/
def rustEmitPre (ps : ParserStates) : List String :=
  rustHeaderLines ++ rustTerminalIdLines ps ++ rustTokenLines ++
    rustActionsLines ps ++ rustErrorCodesLines ps

/-- The sections of `RustParserWriter.emit` that follow the camel-case
collision check, preceded by the check itself: the first failure aborts
emission. -/
def rustEmitRest (ps : ParserStates) : Except String (List String) := do
  let _ ← check_camel_case (rustNonterminals ps)
  let a ← rustNonterminalIdLines ps
  let b := rustGotoLines ps
  let c ← rustReduceLines ps
  let d ← rustReduceSimulatorLines ps
  let e ← rustEntryLines ps
  pure (a ++ b ++ c ++ d ++ e)

/-- `RustParserWriter.emit` (`write_rust_parser`): the sections in order.
A failure of the collision check or of any later section leaves the
already-written prefix on the output stream.  The result is the list of
emitted lines paired with the error, if any (partial output within a
failed section is coarsened to whole sections). -/
def rustEmit (ps : ParserStates) : List String × Option String :=
  match rustEmitRest ps with
  | .ok ls => (rustEmitPre ps ++ ls, none)
  | .error msg => (rustEmitPre ps, some msg)

/-- The byte stream written by the Rust emitter: every line followed by a
newline, concatenated. -/
def rustEmitOutput (ps : ParserStates) : String :=
  String.join ((rustEmit ps).1.map fun l => l ++ "\n")

/-- Split a list into chunks of `n` (Python `range(0, len, n)` slicing;
`n` is 16 at the use site). -/
def chunksOf (n : Nat) : List α → List (List α)
  | [] => []
  | x :: xs => (x :: xs.take (n - 1)) :: chunksOf n (xs.drop (n - 1))
termination_by l => l.length
decreasing_by simp only [List.length_cons, List.length_drop]; omega

/-- The reducer lambda emitted by the interpreted emitter for one
production: `lambda builder, x0, …, xN: <compiled reduce expression>`. -/
def pyReduceFn (prod : Production) : String :=
  let nparams := (prod.rhs.filter is_concrete_element).length
  "lambda builder, " ++
    String.intercalate ", " ((List.range nparams).map fun i => "x" ++ toString i) ++
    ": " ++ pyCompileReduceExpr prod.reducer

/-- `nt.pretty()` on a goto-row key: `Nt` objects have a `pretty` method;
a plain-string key would raise an `AttributeError` in the interpreted
emitter's `ctns` section. -/
def gsymPrettyE : GSym → Except String String
  | .obj o => Except.ok (ntPretty o)
  | .str _ => Except.error "AttributeError: str object has no attribute pretty"

/-- `write_python_parser`: the sequence of strings written to the output
stream (one list entry per `out.write` call), paired with the error if
the `ctns` section fails (partial output within a failed section is
coarsened to whole sections). -/
def pyEmit (ps : ParserStates) : List String × Option String :=
  let g := ps.grammar
  let imports :=
    [ "from jsparagus import runtime\n" ] ++
    (if g.nonterminals.any fun kv => match kv.1 with | .obj _ => true | .str _ => false
     then [ "from jsparagus.runtime import Nt, ErrorToken\n" ] else []) ++
    [ "\n" ]
  let actions :=
    [ "actions = [\n" ] ++
    (ps.states.enum.map fun ist =>
      [ "    # " ++ toString ist.1 ++ ". " ++ tracebackOr ist.2 ++ "\n",
        "    \x7b" ++ String.intercalate ", "
          (ist.2.action_row.map fun kv => pyReprTerm kv.1 ++ ": " ++ toString kv.2) ++
          "\x7d,\n",
        "\n" ]).flatten ++
    [ "]\n\n" ]
  let ctns : Except String (List String) := do
    let rows ← ps.states.mapM fun st => do
      let entries ← st.ctn_row.mapM fun kv => do
        let p ← gsymPrettyE kv.1
        pure (pyReprStr p ++ ": " ++ toString kv.2)
      pure ("    \x7b" ++ String.intercalate ", " entries ++ "\x7d,\n")
    pure ([ "ctns = [\n" ] ++ rows ++ [ "]\n\n" ])
  match ctns with
  | .error msg => (imports ++ actions, some msg)
  | .ok ctnsChunks =>
    let errorCodes :=
      [ "error_codes = [\n" ] ++
      ((chunksOf 16 ps.states).map fun sl =>
        "    " ++ String.intercalate " " (sl.map fun st => pyReprOpt st.error_code ++ ",") ++
          "\n") ++
      [ "]\n\n" ]
    let reductions :=
      [ "reductions = [\n" ] ++
      (ps.prods.enum.map fun ip =>
        match ip.2.nt.name with
        | .init _ => []
        | .plain _ =>
          [ "    # " ++ toString ip.1 ++ ". " ++ production_to_str ip.2 ++ "\n",
            "    (" ++ pyReprStr (ntPretty ip.2.nt) ++ ", " ++
              toString (ip.2.rhs.filter is_concrete_element).length ++ ", " ++
              pyReduceFn ip.2 ++ "),\n" ]).flatten ++
      [ "]\n\n\n" ]
    let builder :=
      [ "class DefaultBuilder:\n" ] ++
      (g.methods.map fun tm =>
        let args := String.intercalate ", "
          ((List.range tm.2.argument_types.length).map fun i => "x" ++ toString i)
        "    def " ++ pyMethodName tm.1 ++ "(self, " ++ args ++ "): return (" ++
          pyReprStr tm.1 ++ ", " ++ args ++ ")\n") ++
      [ "\n\n" ]
    let reprName : NtName → String := fun n =>
      match n with
      | .plain s => pyReprStr s
      | .init goal => "InitNt(" ++ pyReprStr goal ++ ")"
    let goalMap :=
      [ "goal_nt_to_init_state = \x7b\n" ] ++
      (ps.init_state_map.map fun ii =>
        "    " ++ reprName ii.1.name ++ ": " ++ toString ii.2 ++ ",\n") ++
      [ "\x7d\n\n" ]
    let defaultGoal :=
      match ps.init_state_map with
      | [ii] => "=" ++ reprName ii.1.name
      | _ => ""
    let parserCls :=
      [ "class Parser(runtime.Parser):\n",
        "    def __init__(self, goal" ++ defaultGoal ++ ", builder=None):\n",
        "        if builder is None:\n",
        "            builder = DefaultBuilder()\n",
        "        super().__init__(actions, ctns, reductions, error_codes,\n",
        "                         goal_nt_to_init_state[goal], builder)\n",
        "\n" ]
    (imports ++ actions ++ ctnsChunks ++ errorCodes ++ reductions ++ builder ++
      goalMap ++ parserCls, none)

/-- The byte stream written by the interpreted emitter. -/
def pyEmitOutput (ps : ParserStates) : String :=
  String.join (pyEmit ps).1

/-- Reference shape of `snekSub1` on a concatenation of camel segments:
the first substitution inserts an underscore before every second segment
(its scan consumes through each matched segment, so it separates segments
pairwise). -/
def sub1Spec : List (List Char) → List Char
  | [] => []
  | [s] => s
  | s₁ :: s₂ :: r => s₁ ++ '_' :: s₂ ++ sub1Spec r
termination_by l => l.length
decreasing_by simp only [List.length_cons]; omega

/-- `'_' :: g` for every segment `g`: the suffix form of the fully
underscore-separated concatenation. -/
def underJoin (r : List (List Char)) : List Char :=
  (r.map fun g => '_' :: g).flatten

/-- A capitalized lowercase-tail segment: one uppercase letter followed by
a nonempty run of lowercase letters (the title-case-segment convention of
the round-trip claim). -/
def isCamelSeg (l : List Char) : Bool :=
  match l with
  | [] => false
  | c :: t => c.isUpper && !t.isEmpty && t.all Char.isLower

/-- Independent specification of first-appearance deduplication: keep the
head and recursively deduplicate the tail with all copies of the head
removed. -/
def firstAppearanceDedup [DecidableEq α] : List α → List α
  | [] => []
  | x :: xs => x :: firstAppearanceDedup (xs.filter fun a => a ≠ x)
termination_by l => l.length
decreasing_by
  have h := List.length_filter_le (fun a => decide (a ≠ x)) xs
  simp only [List.length_cons]
  omega

/-- The token value type declared by the fixed text that
`RustParserWriter.token` emits (`rustTokenLines`): a terminal identity, a
newline-seen flag and an optional scanned value. -/
structure RustToken where
  terminal_id : String
  saw_newline : Bool
  value : Option String

/-- The semantics of the emitted `Token::into_static`, transcribed from
the fixed lines of `rustTokenLines`: copy `terminal_id` and `saw_newline`
from `self` and set `value` to `None`. -/
def tokenIntoStatic (t : RustToken) : RustToken :=
  { terminal_id := t.terminal_id, saw_newline := t.saw_newline, value := none }

/-- A type with no occurrence of `Unit` anywhere inside it. -/
def unitFree : Ty → Bool
  | .mk n args => !(n == "Unit" && args.isEmpty) && args.attach.all fun a => unitFree a.1
termination_by ty => sizeOf ty
decreasing_by
  have h := List.sizeOf_lt_of_mem a.2
  simp only [Ty.mk.sizeOf_spec]
  omega

/-- The §3 invariant on a reduction expression, relative to the grammar
and the number of concrete right-hand-side elements: every slot reference
is in range, and every method tag exists in the grammar's method table
with matching arity. -/
def rexprWellFormed (g : Grammar) (nconcrete : Nat) : RExpr → Bool
  | .slot i => i < nconcrete
  | .noneExpr => true
  | .someExpr e => rexprWellFormed g nconcrete e
  | .callMethod m args =>
    match alookup m g.methods with
    | none => false
    | some mt =>
      mt.argument_types.length == args.length &&
        (args.attach.all fun a => rexprWellFormed g nconcrete a.1)
termination_by e => sizeOf e
decreasing_by
  · simp only [RExpr.someExpr.sizeOf_spec]; omega
  · have h := List.sizeOf_lt_of_mem a.2
    simp only [RExpr.callMethod.sizeOf_spec]
    omega

/-- The §3 invariants for one production. -/
def productionWellFormed (g : Grammar) (p : Production) : Bool :=
  rexprWellFormed g (p.rhs.filter is_concrete_element).length p.reducer

/-- The §3 invariants for a whole IR: every production's reduction
expression is well-formed, and the `init_state_map` maps argument-free
goal nonterminals to valid state indices. -/
def irWellFormed (ps : ParserStates) : Bool :=
  (ps.prods.all fun p => productionWellFormed ps.grammar p) &&
    (ps.init_state_map.all fun ii => ii.2 < ps.states.length && ii.1.args.isEmpty)

/-- Fixture: a parser-states input whose single state's goto row holds two
distinct nonterminals (`foo_bar` and `FooBar`) with the same camel-case
spelling. -/
def psCamelClash : ParserStates :=
  { grammar := { nonterminals := [], variable_terminals := [], methods := [] },
    states :=
      [ { action_row := [(Term.lit "x", 1)],
          ctn_row := [(GSym.str "foo_bar", 1), (GSym.str "FooBar", 1)],
          error_code := none,
          traceback := none } ],
    prods := [],
    init_state_map := [] }

/-- Fixture: the `Expr` nonterminal object. -/
def ntExpr : NtObj := { name := NtName.plain "Expr", args := [] }

/-- Fixture: a production whose reduction expression is the bare
reference to slot 0, a constant-terminal (unit-typed) slot. -/
def prodUnitSlot : Production :=
  { nt := ntExpr, rhs := [Element.term ";", Element.nt ntExpr],
    reducer := RExpr.slot 0 }

/-- Fixture: a well-formed parser-states input containing
`prodUnitSlot`. -/
def psUnitSlot : ParserStates :=
  { grammar :=
      { nonterminals := [(GSym.obj ntExpr, some (Ty.mk "Expr" []))],
        variable_terminals := [],
        methods := [] },
    states :=
      [ { action_row := [(Term.lit "x", 1)],
          ctn_row := [(GSym.obj ntExpr, 0)],
          error_code := none,
          traceback := none } ],
    prods := [prodUnitSlot],
    init_state_map := [] }

/-- Fixture: a grammar whose method `m` declares a single `Unit`-typed
parameter. -/
def gUnitArg : Grammar :=
  { nonterminals := [],
    variable_terminals := [],
    methods := [("m", { argument_types := [unitTy], return_type := Ty.mk "Expr" [] })] }

/-- Fixture: a grammar declaring one fallible and one non-fallible
zero-argument method. -/
def gFallible : Grammar :=
  { nonterminals := [],
    variable_terminals := [],
    methods :=
      [ ("assignment_expression", { argument_types := [], return_type := Ty.mk "Expr" [] }),
        ("other_method", { argument_types := [], return_type := Ty.mk "Expr" [] }) ] }

/-- Fixture: a trivial-reduction production (one concrete element, bare
reference to slot 0). -/
def prodTrivial : Production :=
  { nt := ntExpr, rhs := [Element.nt ntExpr], reducer := RExpr.slot 0 }

/-- Fixture: a small one-state IR with duplicated action-row and goto-row
keys across rows, for the determinism/ordering witness. -/
def psSmall : ParserStates :=
  { grammar := { nonterminals := [], variable_terminals := [], methods := [] },
    states :=
      [ { action_row := [(Term.lit "a", 1), (Term.endT, 2)],
          ctn_row := [(GSym.obj ntExpr, 1)],
          error_code := none,
          traceback := none },
        { action_row := [(Term.endT, 3), (Term.lit "b", 4)],
          ctn_row := [(GSym.obj ntExpr, 2)],
          error_code := none,
          traceback := none } ],
    prods := [],
    init_state_map := [] }

/-- Valid code points survive the `Char.ofNat` round trip. -/
theorem charToNat_ofNat (n : Nat) (h : n < 0xD800) : (Char.ofNat n).toNat = n := by
  have hv : n.isValidChar := Or.inl h
  simp [Char.ofNat, dif_pos hv, Char.ofNatAux, Char.toNat, UInt32.toNat]

/-- Characters are determined by their code points. -/
theorem char_eq_of_toNat_eq {c d : Char} (h : c.toNat = d.toNat) : c = d := by
  apply Char.ext
  apply UInt32.eq_of_toBitVec_eq
  apply BitVec.eq_of_toNat_eq
  exact h

/-- `Char.isUpper` as a code-point interval. -/
theorem isUpper_iff (c : Char) : c.isUpper = true ↔ 65 ≤ c.toNat ∧ c.toNat ≤ 90 := by
  simp [Char.isUpper, Char.toNat, UInt32.le_def, BitVec.le_def, UInt32.toNat]

/-- `Char.isLower` as a code-point interval. -/
theorem isLower_iff (c : Char) : c.isLower = true ↔ 97 ≤ c.toNat ∧ c.toNat ≤ 122 := by
  simp [Char.isLower, Char.toNat, UInt32.le_def, BitVec.le_def, UInt32.toNat]

/-- `Char.isDigit` as a code-point interval. -/
theorem isDigit_iff (c : Char) : c.isDigit = true ↔ 48 ≤ c.toNat ∧ c.toNat ≤ 57 := by
  simp [Char.isDigit, Char.toNat, UInt32.le_def, BitVec.le_def, UInt32.toNat]

/-- Lowercasing an uppercase letter adds 32 to its code point. -/
theorem toLower_toNat_of_upper {c : Char} (h : c.isUpper = true) :
    (Char.toLower c).toNat = c.toNat + 32 := by
  rw [isUpper_iff] at h
  rw [Char.toLower]
  rw [if_pos ⟨h.1, h.2⟩]
  exact charToNat_ofNat _ (by omega)

/-- Lowercasing an uppercase letter yields a lowercase letter. -/
theorem toLower_isLower_of_upper {c : Char} (h : c.isUpper = true) :
    (Char.toLower c).isLower = true := by
  rw [isLower_iff, toLower_toNat_of_upper h]
  rw [isUpper_iff] at h
  omega

/-- Lowercase and uppercase are disjoint. -/
theorem not_upper_of_lower {c : Char} (h : c.isLower = true) : c.isUpper = false := by
  rw [isLower_iff] at h
  rw [Bool.eq_false_iff]
  intro hc
  rw [isUpper_iff] at hc
  omega

/-- Uppercase and lowercase are disjoint. -/
theorem not_lower_of_upper {c : Char} (h : c.isUpper = true) : c.isLower = false := by
  rw [isUpper_iff] at h
  rw [Bool.eq_false_iff]
  intro hc
  rw [isLower_iff] at hc
  omega

/-- Uppercase letters are not digits. -/
theorem not_digit_of_upper {c : Char} (h : c.isUpper = true) : c.isDigit = false := by
  rw [isUpper_iff] at h
  rw [Bool.eq_false_iff]
  intro hc
  rw [isDigit_iff] at hc
  omega

/-- Uppercasing undoes lowercasing on uppercase letters. -/
theorem toUpper_toLower_of_upper {c : Char} (h : c.isUpper = true) :
    Char.toUpper (Char.toLower c) = c := by
  apply char_eq_of_toNat_eq
  have h1 := toLower_toNat_of_upper h
  have h2 := toLower_isLower_of_upper h
  rw [isLower_iff] at h2
  rw [Char.toUpper, if_pos ⟨h2.1, h2.2⟩, charToNat_ofNat _ (by omega), h1]
  rw [isUpper_iff] at h
  omega

/-- Lowercasing fixes lowercase letters. -/
theorem toLower_of_lower {c : Char} (h : c.isLower = true) : Char.toLower c = c := by
  rw [isLower_iff] at h
  rw [Char.toLower, if_neg]
  omega

/-- Lowercase letters are not the underscore. -/
theorem lower_ne_underscore {c : Char} (h : c.isLower = true) : c ≠ '_' := by
  rw [isLower_iff] at h
  intro he
  subst he
  have hx : ('_').toNat = 95 := rfl
  omega

/-- Uppercase letters are not the underscore. -/
theorem upper_ne_underscore {c : Char} (h : c.isUpper = true) : c ≠ '_' := by
  rw [isUpper_iff] at h
  intro he
  subst he
  have hx : ('_').toNat = 95 := rfl
  omega

/-- Lowercase letters are not the newline. -/
theorem lower_ne_newline {c : Char} (h : c.isLower = true) : c ≠ '\n' := by
  rw [isLower_iff] at h
  intro he
  subst he
  have hx : ('\n').toNat = 10 := rfl
  omega

/-- Lowercasing an uppercase letter never produces the underscore. -/
theorem toLower_ne_underscore_of_upper {c : Char} (h : c.isUpper = true) :
    Char.toLower c ≠ '_' :=
  lower_ne_underscore (toLower_isLower_of_upper h)

/-- `mapM` over a list of subtype elements, applying the underlying
function, equals `mapM` of the underlying list. -/
theorem mapM_subtype {α β : Type} {ε : Type} {P : α → Prop} (l : List {x // P x})
    (f : α → Except ε β) :
    l.mapM (fun a => f a.1) = (l.map Subtype.val).mapM f := by
  induction l with
  | nil => rfl
  | cons x xs ih => rw [List.map_cons, List.mapM_cons, List.mapM_cons, ih]

/-- `mapM` over `attach`, applying the underlying function, equals `mapM`. -/
theorem mapM_attach {α β : Type} {ε : Type} (l : List α) (f : α → Except ε β) :
    l.attach.mapM (fun a => f a.1) = l.mapM f := by
  rw [mapM_subtype, List.attach_map_subtype_val]

/-- `takeWhile` passes over a prefix all of whose elements satisfy the
predicate. -/
theorem takeWhile_append_of_all {l₁ l₂ : List Char} {p : Char → Bool}
    (h : ∀ c ∈ l₁, p c = true) :
    (l₁ ++ l₂).takeWhile p = l₁ ++ l₂.takeWhile p := by
  induction l₁ with
  | nil => simp
  | cons c cs ih =>
    simp only [List.cons_append, List.takeWhile_cons]
    rw [h c (by simp)]
    simp [ih fun d hd => h d (by simp [hd])]

/-- `dropWhile` drops a prefix all of whose elements satisfy the
predicate. -/
theorem dropWhile_append_of_all {l₁ l₂ : List Char} {p : Char → Bool}
    (h : ∀ c ∈ l₁, p c = true) :
    (l₁ ++ l₂).dropWhile p = l₂.dropWhile p := by
  induction l₁ with
  | nil => simp
  | cons c cs ih =>
    simp only [List.cons_append, List.dropWhile_cons]
    rw [h c (by simp)]
    simp [ih fun d hd => h d (by simp [hd])]

/-- C3: for a "wrap `e` in optional" (`Some`) node, the compiled (Rust)
backend emits the recursive compilation of the inner expression wrapped in
`Some(...)`, Rust's optional-construction syntax, and the interpreted
(Python) backend emits exactly the recursive compilation of the inner
expression — which is that target's optional construction, since the
interpreted runtime represents a present optional by the value itself and
an absent one by `None`. -/
theorem some_wraps_target_optional (g : Grammar) (nvars : Nat) (e : RExpr)
    (r : String × List Nat) (h : rustCompileReduceExpr g nvars e = Except.ok r) :
    rustCompileReduceExpr g nvars (RExpr.someExpr e) = Except.ok ("Some(" ++ r.1 ++ ")", r.2) ∧
    pyCompileReduceExpr (RExpr.someExpr e) = pyCompileReduceExpr e := by
  constructor
  · rw [rustCompileReduceExpr]
    rw [h]
    rfl
  · rw [pyCompileReduceExpr]

/-- Witness for `some_wraps_target_optional` at a concrete input. -/
theorem some_wraps_target_optional_witness :
    rustCompileReduceExpr gFallible 0 (RExpr.someExpr RExpr.noneExpr) =
      Except.ok ("Some(None)", []) ∧
    pyCompileReduceExpr (RExpr.someExpr RExpr.noneExpr) = pyCompileReduceExpr RExpr.noneExpr := by
  have h := some_wraps_target_optional gFallible 0 RExpr.noneExpr ("None", [])
    (by rw [rustCompileReduceExpr])
  exact ⟨h.1, h.2⟩

/-- C10: the lifetime-erasing conversion `Token::into_static` of the
emitted token type copies `terminal_id` and `saw_newline` and always sets
`value` to `None`; and the token section the Rust emitter writes is
exactly the fixed text from which `tokenIntoStatic` is transcribed. -/
theorem into_static_erases_value_only :
    (∀ t : RustToken,
      (tokenIntoStatic t).terminal_id = t.terminal_id ∧
      (tokenIntoStatic t).saw_newline = t.saw_newline ∧
      (tokenIntoStatic t).value = none) ∧
    rustTokenLines =
      [ "#[derive(Clone, Debug, PartialEq)]",
        "pub struct Token<'a> \x7b",
        "    pub terminal_id: TerminalId,",
        "    pub saw_newline: bool,",
        "    pub value: Option<&'a str>,",
        "\x7d",
        "",
        "impl Token<'_> \x7b",
        "    pub fn basic_token(terminal_id: TerminalId) -> Self \x7b",
        "        Self \x7b",
        "            terminal_id,",
        "            saw_newline: false,",
        "            value: None,",
        "        \x7d",
        "    \x7d",
        "",
        "    pub fn into_static(self) -> Token<'static> \x7b",
        "        Token \x7b",
        "            terminal_id: self.terminal_id,",
        "            saw_newline: self.saw_newline,",
        "            value: None,",
        "        \x7d",
        "    \x7d",
        "\x7d",
        "" ] := by
  exact ⟨fun t => ⟨rfl, rfl, rfl⟩, rfl⟩

/-- C5: translating `Option<T>` with boxing requested pushes the box into
the argument — the result is the `Option`-of-boxed translation of `T`
(including failure propagation), and whenever translation succeeds the
result begins with `Option<`, never with `Box<`. -/
theorem option_box_pushed_inside (t : Ty) (ns : String) :
    type_to_rust (Ty.mk "Option" [t]) ns true =
      Except.map (fun s => "Option<" ++ s ++ ">") (type_to_rust t ns true) ∧
    ((type_to_rust (Ty.mk "Option" [t]) ns true).toOption.all
      fun s => s.data.take 7 = "Option<".data) = true := by
  have h1 : type_to_rust (Ty.mk "Option" [t]) ns true =
      Except.map (fun s => "Option<" ++ s ++ ">") (type_to_rust t ns true) := by
    rw [type_to_rust]
    rfl
  refine ⟨h1, ?_⟩
  rw [h1]
  cases hin : type_to_rust t ns true with
  | error e => rfl
  | ok v =>
    simp only [Except.map, Except.toOption, Option.all]
    have hlen : ("Option<" : String).data.length = 7 := rfl
    rw [String.data_append, String.data_append, List.append_assoc, ← hlen,
      List.take_left]
    simp

/-- C4: a compiled method call carries the trailing `?` failure marker if
and only if the method's normalized Rust name is on the fixed fallible
allow-list; the last character of the compiled expression is `?` exactly
for allow-listed methods (otherwise it is the closing parenthesis). -/
theorem fallible_marker_iff (g : Grammar) (nvars : Nat) (m : String) (args : List RExpr)
    (s : String) (used : List Nat)
    (h : rustCompileReduceExpr g nvars (RExpr.callMethod m args) = Except.ok (s, used)) :
    (s.data.getLast? = some '?') ↔ method_name_to_rust m ∈ FALLIBLE_METHOD_NAMES := by
  rw [rustCompileReduceExpr] at h
  cases hm : alookup m g.methods with
  | none => rw [hm] at h; exact absurd h (by simp [Bind.bind, Except.bind])
  | some mt =>
    rw [hm] at h
    simp only [Bind.bind, Except.bind] at h
    by_cases harity : mt.argument_types.length = args.length
    · rw [if_pos harity] at h
      cases hr : ((mt.argument_types.zip args).filter fun p => !p.1.isUnit).attach.mapM
          (fun p => rustCompileReduceExpr g nvars p.1.2) with
      | error e => rw [hr] at h; exact absurd h (by simp)
      | ok rs =>
        rw [hr] at h
        simp only [Except.ok.injEq, Prod.mk.injEq] at h
        have hs := h.1.symm
        by_cases hf : method_name_to_rust m ∈ FALLIBLE_METHOD_NAMES
        · rw [if_pos hf] at hs
          subst hs
          rw [String.data_append]
          constructor
          · intro _; exact hf
          · intro _
            rw [List.getLast?_append]
            rfl
        · rw [if_neg hf] at hs
          subst hs
          constructor
          · intro hlast
            rw [String.data_append, List.getLast?_append] at hlast
            simp [String.data] at hlast
          · intro hmem; exact absurd hmem hf
    · rw [if_neg harity] at h
      exact absurd h (by simp)

/-- Witness for `fallible_marker_iff`: the allow-listed method
`assignment_expression` compiles with the `?` marker. -/
theorem fallible_marker_iff_witness :
    (("handler.assignment_expression()?" : String).data.getLast? = some '?') ↔
      method_name_to_rust "assignment_expression" ∈ FALLIBLE_METHOD_NAMES := by
  exact fallible_marker_iff gFallible 0 "assignment_expression" []
    "handler.assignment_expression()?" []
    (by rw [rustCompileReduceExpr]
        simp [alookup, gFallible, List.mapM, List.mapM.loop, Bind.bind, Except.bind,
          method_name_to_rust, pyPartition, to_snek_case, snekSub1, snekSub2,
          FALLIBLE_METHOD_NAMES]
        rfl)

/-- C2 (amended): only the compiled (Rust) backend drops unit-typed
arguments.  For a method call with a known signature of matching arity,
the Rust compiler compiles exactly the arguments whose declared parameter
type is not `Unit`, while the interpreted (Python) backend compiles every
argument, never consulting the signature. -/
theorem unit_args_dropped_rust_only (g : Grammar) (nvars : Nat) (m : String)
    (args : List RExpr) (mt : MethodType) (h1 : alookup m g.methods = some mt)
    (h2 : mt.argument_types.length = args.length) :
    rustCompileReduceExpr g nvars (RExpr.callMethod m args) =
      (((mt.argument_types.zip args).filter fun p => !p.1.isUnit).mapM
          (fun p => rustCompileReduceExpr g nvars p.2)).bind
        (fun rs =>
          Except.ok
            ((if method_name_to_rust m ∈ FALLIBLE_METHOD_NAMES then
                "handler." ++ method_name_to_rust m ++ "(" ++
                  String.intercalate ", " (rs.map Prod.fst) ++ ")" ++ "?"
              else
                "handler." ++ method_name_to_rust m ++ "(" ++
                  String.intercalate ", " (rs.map Prod.fst) ++ ")"),
             (rs.map Prod.snd).flatten)) ∧
    pyCompileReduceExpr (RExpr.callMethod m args) =
      "builder." ++ pyMethodName m ++ "(" ++
        String.intercalate ", " (args.map pyCompileReduceExpr) ++ ")" := by
  constructor
  · rw [rustCompileReduceExpr, h1]
    simp only [Bind.bind, Except.bind, if_pos h2]
    rw [mapM_attach ((mt.argument_types.zip args).filter fun p => !p.1.isUnit)
      (fun p => rustCompileReduceExpr g nvars p.2)]
  · rw [pyCompileReduceExpr]
    rw [List.attach_map_val args pyCompileReduceExpr]

/-- Witness for `unit_args_dropped_rust_only` at a concrete input. -/
theorem unit_args_dropped_rust_only_witness :
    rustCompileReduceExpr gUnitArg 0 (RExpr.callMethod "m" [RExpr.noneExpr]) =
      ((([(unitTy, RExpr.noneExpr)].filter fun p => !p.1.isUnit).mapM
          (fun p => rustCompileReduceExpr gUnitArg 0 p.2)).bind
        (fun rs =>
          Except.ok
            ((if method_name_to_rust "m" ∈ FALLIBLE_METHOD_NAMES then
                "handler." ++ method_name_to_rust "m" ++ "(" ++
                  String.intercalate ", " (rs.map Prod.fst) ++ ")" ++ "?"
              else
                "handler." ++ method_name_to_rust "m" ++ "(" ++
                  String.intercalate ", " (rs.map Prod.fst) ++ ")"),
             (rs.map Prod.snd).flatten))) ∧
    pyCompileReduceExpr (RExpr.callMethod "m" [RExpr.noneExpr]) =
      "builder." ++ pyMethodName "m" ++ "(" ++
        String.intercalate ", "
          ([RExpr.noneExpr].map pyCompileReduceExpr) ++ ")" :=
  unit_args_dropped_rust_only gUnitArg 0 "m" [RExpr.noneExpr]
    { argument_types := [unitTy], return_type := Ty.mk "Expr" [] } rfl rfl

/-- C2 (counterexample): the grammar declares method `m`'s only parameter
as `Unit`; the Rust backend drops the argument (`handler.m()`), but the
Python backend still compiles it (`builder.m(None)`), so the claim that
each backend drops unit-typed arguments is false. -/
theorem py_unit_arg_not_dropped :
    alookup "m" gUnitArg.methods =
      some { argument_types := [unitTy], return_type := Ty.mk "Expr" [] } ∧
    rustCompileReduceExpr gUnitArg 0 (RExpr.callMethod "m" [RExpr.noneExpr]) =
      Except.ok ("handler.m()", []) ∧
    pyCompileReduceExpr (RExpr.callMethod "m" [RExpr.noneExpr]) = "builder.m(None)" ∧
    "builder.m(None)" ≠ "builder.m()" := by
  refine ⟨rfl, ?_, ?_, by decide⟩
  · rw [rustCompileReduceExpr]
    simp [alookup, gUnitArg, Bind.bind, Except.bind, List.filter, Ty.isUnit, unitTy,
      List.mapM, List.mapM.loop, method_name_to_rust, pyPartition, to_snek_case,
      snekSub1, snekSub2, FALLIBLE_METHOD_NAMES]
    rfl
  · rw [pyCompileReduceExpr]
    rw [List.attach_map_val [RExpr.noneExpr] pyCompileReduceExpr]
    simp [pyCompileReduceExpr, pyMethodName, pyReplaceChar]
    rfl

/-- C7: a production with exactly one concrete element whose reducer is
the bare reference to slot 0 is a trivial reduction.  The Rust emitter's
match arm consists of the header, the comment and the `Ok` line only — no
pop, downcast, or push code — and the interpreted emitter's reducer is
the identity lambda on its single argument. -/
theorem trivial_reduction_noop (g : Grammar) (i : Nat) (prod : Production) (cc : String)
    (h1 : (prod.rhs.filter is_concrete_element).length = 1)
    (h2 : prod.reducer = RExpr.slot 0)
    (h3 : nonterminal_to_camel (GSym.obj prod.nt) = Except.ok cc) :
    rustReduceCase g i prod = Except.ok
      [ ind 2 (toString i ++ " => \x7b"),
        ind 3 ("// " ++ production_to_str prod),
        ind 3 ("Ok(NonterminalId::" ++ cc ++ ")"),
        ind 2 "\x7d" ] ∧
    pyReduceFn prod = "lambda builder, x0: x0" := by
  constructor
  · rw [rustReduceCase]
    rw [h2]
    rw [h1]
    rw [rustCompileReduceExpr]
    simp only [Bind.bind, Except.bind, Nat.zero_lt_one, if_pos, beq_self_eq_true,
      Bool.true_and, h3]
    rfl
  · rw [pyReduceFn, h1, h2]
    rw [pyCompileReduceExpr]
    rfl

/-- Witness for `trivial_reduction_noop` at a concrete input. -/
theorem trivial_reduction_noop_witness :
    rustReduceCase gFallible 7 prodTrivial = Except.ok
      [ ind 2 (toString 7 ++ " => \x7b"),
        ind 3 ("// " ++ production_to_str prodTrivial),
        ind 3 ("Ok(NonterminalId::Expr)"),
        ind 2 "\x7d" ] ∧
    pyReduceFn prodTrivial = "lambda builder, x0: x0" :=
  trivial_reduction_noop gFallible 7 prodTrivial "Expr" rfl rfl
    (by simp [nonterminal_to_camel, nonterminal_to_snake, ntExpr, prodTrivial,
      to_snek_case, snekSub1, snekSub2, to_camel_case, camelChars, pyIsLower,
      pyCapitalize, Except.map])

/-- `mapM` over `Except` succeeds when every element's computation
succeeds. -/
theorem exceptMapM_ok {α β ε : Type} (l : List α) (f : α → Except ε β)
    (h : ∀ a ∈ l, ∃ b, f a = Except.ok b) : ∃ bs, l.mapM f = Except.ok bs := by
  induction l with
  | nil => exact ⟨[], rfl⟩
  | cons x xs ih =>
    obtain ⟨b, hb⟩ := h x (by simp)
    obtain ⟨bs, hbs⟩ := ih fun a ha => h a (by simp [ha])
    refine ⟨b :: bs, ?_⟩
    rw [List.mapM_cons, hb]
    simp only [Bind.bind, Except.bind, hbs]
    rfl

/-- C9 (amended): the type translator never hits the `Unit` assertion on a
`Unit`-free type — translation succeeds for any namespace and any boxing
request whenever `Unit` occurs nowhere in the type.  (A well-formed IR can
still make the compiled emitter request boxing for a `Unit`-typed slot;
see `unit_slot_assertion_fires`.) -/
theorem type_to_rust_ok_of_unit_free (ty : Ty) (ns : String) (boxed : Bool)
    (h : unitFree ty = true) : ∃ s, type_to_rust ty ns boxed = Except.ok s := by
  induction ty, ns, boxed using type_to_rust.induct with
  | case1 ty ns hu =>
    exfalso
    obtain ⟨n, args⟩ := ty
    rw [unitFree, Bool.and_eq_true] at h
    rw [Ty.isUnit] at hu
    rw [hu] at h
    simp at h
  | case2 ty ns boxed hu hb =>
    rw [type_to_rust.eq_def, if_pos hu, if_neg hb]
    exact ⟨"()", rfl⟩
  | case3 ty ns boxed hu ht =>
    rw [type_to_rust.eq_def, if_neg hu, if_pos ht]
    exact ⟨rustBox boxed "Token<'alloc>", rfl⟩
  | case4 ns boxed arg hu ht ih =>
    rw [type_to_rust.eq_def]
    simp only [if_neg hu, if_neg ht]
    have harg : unitFree arg = true := by
      rw [unitFree, Bool.and_eq_true] at h
      exact List.all_eq_true.mp h.2 ⟨arg, by simp⟩ (List.mem_attach _ _)
    obtain ⟨s, hs⟩ := ih harg
    rw [hs]
    exact ⟨"Option<" ++ s ++ ">", rfl⟩
  | case5 ns boxed arg hu ht ih =>
    rw [type_to_rust.eq_def]
    simp only [if_neg hu, if_neg ht]
    have harg : unitFree arg = true := by
      rw [unitFree, Bool.and_eq_true] at h
      exact List.all_eq_true.mp h.2 ⟨arg, by simp⟩ (List.mem_attach _ _)
    obtain ⟨s, hs⟩ := ih harg
    rw [hs]
    exact ⟨rustBox boxed ("Vec<'alloc, " ++ s ++ ">"), rfl⟩
  | case6 ns boxed name args hno hnv hemp hu ht =>
    rw [type_to_rust.eq_def]
    simp only [if_neg hu, if_neg ht]
    rw [if_pos hemp]
    exact ⟨_, rfl⟩
  | case7 ns boxed name args hno hnv hemp hu ht ih =>
    rw [type_to_rust.eq_def]
    simp only [if_neg hu, if_neg ht]
    rw [if_neg hemp]
    ·
      have hall : ∀ a : { x // x ∈ args }, unitFree a.1 = true := by
        intro a
        rw [unitFree, Bool.and_eq_true] at h
        exact List.all_eq_true.mp h.2 a (List.mem_attach _ _)
      obtain ⟨bs, hbs⟩ :=
        exceptMapM_ok args.attach (fun a => type_to_rust a.1 ns boxed)
          (fun a _ => ih a (hall a))
      simp only [Bind.bind, Except.bind, hbs]
      exact ⟨_, rfl⟩

/-- Witness for `type_to_rust_ok_of_unit_free` at a concrete input. -/
theorem type_to_rust_ok_of_unit_free_witness :
    ∃ s, type_to_rust (Ty.mk "Vec" [Ty.mk "Expr" []]) "" true = Except.ok s :=
  type_to_rust_ok_of_unit_free (Ty.mk "Vec" [Ty.mk "Expr" []]) "" true
    (by simp [unitFree])

/-- C9 (counterexample): `psUnitSlot` satisfies the §3 invariants, yet its
production's reduction expression references slot 0, whose element is the
constant terminal `";"` of element type `Unit`; the compiled emitter
requests a boxed translation of that type, the `assert not boxed` branch
fires, and generation of the reduce dispatcher fails. -/
theorem unit_slot_assertion_fires :
    irWellFormed psUnitSlot = true ∧
    element_type psUnitSlot.grammar (Element.term ";") = Except.ok unitTy ∧
    type_to_rust unitTy "" true = Except.error "assert not boxed" ∧
    rustReduceCase psUnitSlot.grammar 0 prodUnitSlot =
      Except.error "assert not boxed" ∧
    (rustEmit psUnitSlot).2 = some "assert not boxed" := by
  have hcase : rustReduceCase psUnitSlot.grammar 0 prodUnitSlot =
      Except.error "assert not boxed" := by
    rw [rustReduceCase]
    simp only [prodUnitSlot, psUnitSlot]
    rw [rustCompileReduceExpr]
    simp [is_concrete_element, List.filter, Bind.bind, Except.bind, List.enum,
      element_type, ntLookup, alookup, ntExpr, List.mapM, List.mapM.loop,
      pure, Except.pure]
    rw [type_to_rust.eq_def]
    simp [Ty.isUnit, unitTy, pure, Except.pure]
  have hchk : check_camel_case (rustNonterminals psUnitSlot) = Except.ok () := by
    simp [check_camel_case, check_camel_case_aux, rustNonterminals, psUnitSlot,
      orderedDedup, orderedDedupAux, nonterminal_to_camel, nonterminal_to_snake,
      ntExpr, to_snek_case, snekSub1, snekSub2, to_camel_case, camelChars,
      pyIsLower, pyCapitalize, alookup, Bind.bind, Except.bind, Except.map,
      String.join]
  have hmem : GSym.obj prodUnitSlot.nt ∈ rustNonterminals psUnitSlot := by
    simp [rustNonterminals, psUnitSlot, orderedDedup, orderedDedupAux,
      prodUnitSlot, ntExpr]
  have hnt : ∃ v, rustNonterminalIdLines psUnitSlot = Except.ok v := by
    rw [rustNonterminalIdLines]
    simp [rustNonterminals, psUnitSlot, orderedDedup, orderedDedupAux,
      nonterminal_to_camel, nonterminal_to_snake, ntExpr, to_snek_case, snekSub1,
      snekSub2, to_camel_case, camelChars, pyIsLower, pyCapitalize, List.enum,
      List.enumFrom, List.mapM, List.mapM.loop, Bind.bind, Except.bind, pure,
      Except.pure, Except.map, String.join]
  have hred : rustReduceLines psUnitSlot = Except.error "assert not boxed" := by
    rw [rustReduceLines]
    have hps : psUnitSlot.prods = [prodUnitSlot] := rfl
    simp [hps, List.enum, List.enumFrom, List.mapM, List.mapM.loop, hmem, hcase,
      Bind.bind, Except.bind, pure, Except.pure]
  obtain ⟨v, hv⟩ := hnt
  refine ⟨?_, ?_, ?_, hcase, ?_⟩
  · simp [irWellFormed, psUnitSlot, prodUnitSlot, productionWellFormed,
      rexprWellFormed, is_concrete_element, List.filter]
  · simp [element_type, psUnitSlot, ntLookup, alookup, ntExpr]
  · rw [type_to_rust.eq_def]
    simp [Ty.isUnit, unitTy]
  · rw [rustEmit, rustEmitRest]
    simp [hchk, hv, hred, Bind.bind, Except.bind, pure, Except.pure]

/-- If the camel-collision check succeeds, no camel spelling in the
remaining list collides with the already-seen table, and any two
nonterminals in the list with the same (successfully computed) camel
spelling are equal. -/
theorem check_camel_case_aux_ok : ∀ (nts : List GSym) (seen : List (String × GSym)),
    check_camel_case_aux seen nts = Except.ok () →
    (∀ n ∈ nts, ∀ c, nonterminal_to_camel n = Except.ok c → alookup c seen = none) ∧
    (∀ n1 n2 c, n1 ∈ nts → n2 ∈ nts → nonterminal_to_camel n1 = Except.ok c →
      nonterminal_to_camel n2 = Except.ok c → n1 = n2) := by
  intro nts
  induction nts with
  | nil =>
    intro seen h
    exact ⟨fun n hn => absurd hn (List.not_mem_nil n),
      fun n1 n2 c h1 => absurd h1 (List.not_mem_nil n1)⟩
  | cons nt rest ih =>
    intro seen h
    rw [check_camel_case_aux] at h
    cases hc : nonterminal_to_camel nt with
    | error e =>
      rw [hc] at h
      exact absurd h (by simp [Bind.bind, Except.bind])
    | ok c0 =>
      rw [hc] at h
      simp only [Bind.bind, Except.bind] at h
      cases hl : alookup c0 seen with
      | some prev => rw [hl] at h; exact absurd h (by simp)
      | none =>
        rw [hl] at h
        obtain ⟨ih1, ih2⟩ := ih ((c0, nt) :: seen) h
        constructor
        · intro n hn c hcam
          rcases List.mem_cons.mp hn with heq | hmem
          · subst heq
            rw [hc] at hcam
            cases hcam
            exact hl
          · have := ih1 n hmem c hcam
            rw [alookup] at this
            by_cases hcc : c0 = c
            · rw [if_pos hcc] at this; cases this
            · rw [if_neg hcc] at this; exact this
        · intro n1 n2 c h1 h2 hcam1 hcam2
          rcases List.mem_cons.mp h1 with he1 | hm1 <;>
            rcases List.mem_cons.mp h2 with he2 | hm2
          · subst he1; subst he2; rfl
          · subst he1
            rw [hc] at hcam1
            cases hcam1
            have := ih1 n2 hm2 c0 hcam2
            rw [alookup, if_pos rfl] at this
            cases this
          · subst he2
            rw [hc] at hcam2
            cases hcam2
            have := ih1 n1 hm1 c0 hcam1
            rw [alookup, if_pos rfl] at this
            cases this
          · exact ih2 n1 n2 c hm1 hm2 hcam1 hcam2

/-- Whatever happens, the Rust emitter has written at least the header by
the time it stops. -/
theorem rustEmit_output_ne_nil (ps : ParserStates) : (rustEmit ps).1 ≠ [] := by
  rw [rustEmit]
  cases rustEmitRest ps with
  | ok ls => simp [rustEmitPre, rustHeaderLines]
  | error msg => simp [rustEmitPre, rustHeaderLines]

/-- C1 (amended): when two distinct nonterminals that appear in some
state's goto row share a camel-case spelling, the Rust emitter fails with
a fatal generation error — but only after the header, terminal enum,
token type, actions table and error-code sections have already been
written to the output stream, so a partial (nonempty) file is produced. -/
theorem camel_collision_fails_after_prefix (ps : ParserStates) (n1 n2 : GSym) (c : String)
    (h1 : n1 ∈ rustNonterminals ps) (h2 : n2 ∈ rustNonterminals ps) (hne : n1 ≠ n2)
    (hc1 : nonterminal_to_camel n1 = Except.ok c)
    (hc2 : nonterminal_to_camel n2 = Except.ok c) :
    (rustEmit ps).2.isSome = true ∧
    (rustEmit ps).1 = rustEmitPre ps ∧
    (rustEmit ps).1 ≠ [] := by
  have hchk : ∀ u, check_camel_case (rustNonterminals ps) ≠ Except.ok u := by
    intro u hok
    cases u
    have := (check_camel_case_aux_ok (rustNonterminals ps) [] hok).2 n1 n2 c h1 h2 hc1 hc2
    exact hne this
  have hrest : ∃ msg, rustEmitRest ps = Except.error msg := by
    rw [rustEmitRest]
    cases hcc : check_camel_case (rustNonterminals ps) with
    | ok u => exact absurd hcc (hchk u)
    | error msg => exact ⟨msg, by simp [Bind.bind, Except.bind]⟩
  obtain ⟨msg, hmsg⟩ := hrest
  rw [rustEmit, hmsg]
  exact ⟨rfl, rfl, by simp [rustEmitPre, rustHeaderLines]⟩

/-- C1 (counterexample): on `psCamelClash` the two distinct goto-row
nonterminals `foo_bar` and `FooBar` share the camel spelling `FooBar`;
the emitter does raise a fatal error, but the output already written at
that point is nonempty — a partial file is produced, contradicting the
"before any output is written" part of the claim. -/
theorem camel_collision_partial_output :
    nonterminal_to_camel (GSym.str "foo_bar") = Except.ok "FooBar" ∧
    nonterminal_to_camel (GSym.str "FooBar") = Except.ok "FooBar" ∧
    GSym.str "foo_bar" ≠ GSym.str "FooBar" ∧
    (rustEmit psCamelClash).2.isSome = true ∧
    (rustEmit psCamelClash).1 ≠ [] := by
  refine ⟨?_, ?_, by decide, ?_, rustEmit_output_ne_nil psCamelClash⟩
  · simp [nonterminal_to_camel, nonterminal_to_snake, to_snek_case, snekSub1,
      snekSub2, to_camel_case, camelChars, pySplit, pyCapitalize, pyIsLower,
      Except.map]
  · simp [nonterminal_to_camel, nonterminal_to_snake, to_snek_case, snekSub1,
      snekSub2, to_camel_case, camelChars, pySplit, pyCapitalize, pyIsLower,
      Except.map]
  · rw [rustEmit]
    rw [show rustEmitRest psCamelClash = Except.error
        "ValueError: foo_bar and FooBar have the same camel-case spelling (FooBar)" from by
      rw [rustEmitRest]
      rw [show check_camel_case (rustNonterminals psCamelClash) = Except.error
          "ValueError: foo_bar and FooBar have the same camel-case spelling (FooBar)" from by
        simp [check_camel_case, check_camel_case_aux, rustNonterminals, psCamelClash,
          orderedDedup, orderedDedupAux, nonterminal_to_camel, nonterminal_to_snake,
          to_snek_case, snekSub1, snekSub2, to_camel_case, camelChars, pySplit,
          pyCapitalize, pyIsLower, Except.map, alookup, gsymToStr, Bind.bind,
          Except.bind]]
      simp [Bind.bind, Except.bind]]
    rfl

/-- The `OrderedSet` accumulator equals the independent first-appearance
specification applied to the elements not yet seen. -/
theorem orderedDedupAux_eq [DecidableEq α] : ∀ (l : List α) (seen : List α),
    orderedDedupAux seen l = firstAppearanceDedup (l.filter fun a => a ∉ seen) := by
  intro l
  induction l with
  | nil => intro seen; simp [orderedDedupAux, firstAppearanceDedup]
  | cons x xs ih =>
    intro seen
    rw [orderedDedupAux]
    by_cases hx : x ∈ seen
    · rw [if_pos hx, ih seen, List.filter_cons]
      have hcond : (decide ¬(x ∈ seen)) = false := by simp [hx]
      rw [hcond]
      simp
    · rw [if_neg hx, ih (x :: seen), List.filter_cons]
      have hcond : (decide ¬(x ∈ seen)) = true := by simp [hx]
      rw [hcond]
      simp only [if_pos]
      rw [show firstAppearanceDedup (x :: List.filter (fun a => decide ¬(a ∈ seen)) xs) =
          x :: firstAppearanceDedup
            ((List.filter (fun a => decide ¬(a ∈ seen)) xs).filter fun a => a ≠ x) from by
        rw [firstAppearanceDedup]]
      congr 1
      rw [List.filter_filter]
      congr 1
      apply List.filter_congr
      intro a _
      by_cases h1 : a = x <;> by_cases h2 : a ∈ seen <;>
        simp [h1, h2, List.mem_cons]

/-- `OrderedSet` iteration is exactly first-appearance deduplication. -/
theorem orderedDedup_eq_firstAppearanceDedup [DecidableEq α] (l : List α) :
    orderedDedup l = firstAppearanceDedup l := by
  rw [orderedDedup, orderedDedupAux_eq]
  congr 1
  apply List.filter_eq_self.mpr
  intro a _
  simp

/-- Membership in the first-appearance deduplication is membership in the
original list. -/
theorem mem_firstAppearanceDedup [DecidableEq α] : ∀ (l : List α) (a : α),
    a ∈ firstAppearanceDedup l ↔ a ∈ l := by
  intro l
  induction l using firstAppearanceDedup.induct with
  | case1 => intro a; simp [firstAppearanceDedup]
  | case2 x xs ih =>
    intro a
    rw [firstAppearanceDedup]
    constructor
    · intro h
      rcases List.mem_cons.mp h with he | hm
      · subst he; simp
      · have h1 := (ih a).mp hm
        have h2 := List.mem_of_mem_filter h1
        simp [h2]
    · intro h
      rcases List.mem_cons.mp h with he | hm
      · subst he; simp
      · by_cases hax : a = x
        · subst hax; simp
        · apply List.mem_cons_of_mem
          apply (ih a).mpr
          apply List.mem_filter.mpr
          simp [hm, hax]

/-- The first-appearance deduplication has no duplicates. -/
theorem firstAppearanceDedup_nodup [DecidableEq α] : ∀ (l : List α),
    (firstAppearanceDedup l).Nodup := by
  intro l
  induction l using firstAppearanceDedup.induct with
  | case1 => simp [firstAppearanceDedup]
  | case2 x xs ih =>
    rw [firstAppearanceDedup]
    apply List.Nodup.cons
    · intro hx
      have h1 := (mem_firstAppearanceDedup _ x).mp hx
      have h2 := List.mem_filter.mp h1
      simp at h2
    · exact ih

/-- C8: each emitter is deterministic — identical IR input produces an
identical byte stream — and the compiled emitter's terminal and
nonterminal enumerations are exactly the first-appearance deduplication
(`OrderedSet`) of the keys of the states' action rows and goto rows: no
duplicates, the same members, in first-appearance order. -/
theorem emitters_deterministic_first_appearance_order (ps : ParserStates)
    (out₁ out₂ : String) (pout₁ pout₂ : String)
    (h₁ : rustEmitOutput ps = out₁) (h₂ : rustEmitOutput ps = out₂)
    (h₃ : pyEmitOutput ps = pout₁) (h₄ : pyEmitOutput ps = pout₂) :
    out₁ = out₂ ∧ pout₁ = pout₂ ∧
    rustTerminals ps =
      firstAppearanceDedup ((ps.states.map fun st => st.action_row.map Prod.fst).flatten) ∧
    (rustTerminals ps).Nodup ∧
    (∀ t, t ∈ rustTerminals ps ↔
      t ∈ (ps.states.map fun st => st.action_row.map Prod.fst).flatten) ∧
    rustNonterminals ps =
      firstAppearanceDedup ((ps.states.map fun st => st.ctn_row.map Prod.fst).flatten) ∧
    (rustNonterminals ps).Nodup ∧
    (∀ nt, nt ∈ rustNonterminals ps ↔
      nt ∈ (ps.states.map fun st => st.ctn_row.map Prod.fst).flatten) := by
  subst h₁
  subst h₃
  refine ⟨h₂, h₄, ?_, ?_, ?_, ?_, ?_, ?_⟩
  · rw [rustTerminals, orderedDedup_eq_firstAppearanceDedup]
  · rw [rustTerminals, orderedDedup_eq_firstAppearanceDedup]
    exact firstAppearanceDedup_nodup _
  · intro t
    rw [rustTerminals, orderedDedup_eq_firstAppearanceDedup]
    exact mem_firstAppearanceDedup _ t
  · rw [rustNonterminals, orderedDedup_eq_firstAppearanceDedup]
  · rw [rustNonterminals, orderedDedup_eq_firstAppearanceDedup]
    exact firstAppearanceDedup_nodup _
  · intro nt
    rw [rustNonterminals, orderedDedup_eq_firstAppearanceDedup]
    exact mem_firstAppearanceDedup _ nt

/-- Witness for `emitters_deterministic_first_appearance_order` at a
concrete two-state input whose rows repeat keys across states. -/
theorem emitters_deterministic_witness :
    rustEmitOutput psSmall = rustEmitOutput psSmall ∧
    pyEmitOutput psSmall = pyEmitOutput psSmall ∧
    rustTerminals psSmall =
      firstAppearanceDedup
        ((psSmall.states.map fun st => st.action_row.map Prod.fst).flatten) ∧
    (rustTerminals psSmall).Nodup ∧
    (∀ t, t ∈ rustTerminals psSmall ↔
      t ∈ (psSmall.states.map fun st => st.action_row.map Prod.fst).flatten) ∧
    rustNonterminals psSmall =
      firstAppearanceDedup
        ((psSmall.states.map fun st => st.ctn_row.map Prod.fst).flatten) ∧
    (rustNonterminals psSmall).Nodup ∧
    (∀ nt, nt ∈ rustNonterminals psSmall ↔
      nt ∈ (psSmall.states.map fun st => st.ctn_row.map Prod.fst).flatten) :=
  emitters_deterministic_first_appearance_order psSmall
    (rustEmitOutput psSmall) (rustEmitOutput psSmall)
    (pyEmitOutput psSmall) (pyEmitOutput psSmall) rfl rfl rfl rfl

/-- Destructor for camel segments. -/
theorem isCamelSeg_elim {s : List Char} (h : isCamelSeg s = true) :
    ∃ u t, s = u :: t ∧ u.isUpper = true ∧ t ≠ [] ∧ ∀ c ∈ t, c.isLower = true := by
  cases s with
  | nil => simp [isCamelSeg] at h
  | cons u t =>
    rw [isCamelSeg] at h
    simp only [Bool.and_eq_true, Bool.not_eq_true'] at h
    refine ⟨u, t, rfl, h.1.1, ?_, ?_⟩
    · intro ht
      subst ht
      simp at h
    · intro c hc
      exact List.all_eq_true.mp h.2 c hc

/-- `snekSub1` steps over a position where the pattern cannot match. -/
theorem snekSub1_cons_nomatch (c : Char) (l : List Char)
    (h : ∀ d e rest, l = d :: e :: rest →
      ¬(c ≠ '\n' ∧ d.isUpper = true ∧ e.isLower = true)) :
    snekSub1 (c :: l) = c :: snekSub1 l := by
  cases l with
  | nil => rw [snekSub1, snekSub1]
  | cons d l' =>
    cases l' with
    | nil => rw [snekSub1, snekSub1]
    | cons e rest =>
      rw [snekSub1, if_neg (h d e rest rfl)]

/-- `snekSub1` fires at a match: inserts the underscore and consumes the
maximal lowercase run. -/
theorem snekSub1_cons_match (c d e : Char) (rest : List Char)
    (hc : c ≠ '\n') (hd : d.isUpper = true) (he : e.isLower = true) :
    snekSub1 (c :: d :: e :: rest) =
      c :: '_' :: d ::
        ((e :: rest).takeWhile Char.isLower ++ snekSub1 ((e :: rest).dropWhile Char.isLower)) := by
  rw [snekSub1, if_pos ⟨hc, hd, he⟩]

/-- `snekSub1` is the identity on all-lowercase text. -/
theorem snekSub1_all_lower : ∀ (t : List Char), (∀ c ∈ t, c.isLower = true) →
    snekSub1 t = t := by
  intro t
  induction t with
  | nil => intro _; rw [snekSub1]
  | cons c t' ih =>
    intro h
    rw [snekSub1_cons_nomatch]
    · rw [ih fun d hd => h d (List.mem_cons_of_mem c hd)]
    · intro d e rest heq hcon
      have hd : d ∈ t' := by rw [heq]; simp
      have := not_upper_of_lower (h d (List.mem_cons_of_mem c hd))
      rw [hcon.2.1] at this
      cases this

/-- `snekSub1` walking a lowercase run into an upper-lower segment
boundary: one underscore is inserted, the segment is consumed whole, and
scanning resumes at `m` (which must be empty or start with an uppercase
letter). -/
theorem snekSub1_seg_step : ∀ (t₁ : List Char) (u₂ : Char) (t₂ m : List Char),
    t₁ ≠ [] → (∀ c ∈ t₁, c.isLower = true) → u₂.isUpper = true →
    t₂ ≠ [] → (∀ c ∈ t₂, c.isLower = true) →
    (m = [] ∨ ∃ u m', m = u :: m' ∧ u.isUpper = true) →
    snekSub1 (t₁ ++ u₂ :: t₂ ++ m) = t₁ ++ '_' :: u₂ :: t₂ ++ snekSub1 m := by
  intro t₁
  induction t₁ with
  | nil => intro u₂ t₂ m hne; exact absurd rfl hne
  | cons a t₁' ih =>
    intro u₂ t₂ m _ hlow hu ht₂ hlow₂ hm
    have ha : a.isLower = true := hlow a (by simp)
    cases ht₁' : t₁' with
    | nil =>
      subst ht₁'
      cases t₂ with
      | nil => exact absurd rfl ht₂
      | cons b t₂' =>
        have hb : b.isLower = true := hlow₂ b (by simp)
        have hstep := snekSub1_cons_match a u₂ b (t₂' ++ m)
          (lower_ne_newline ha) hu hb
        simp only [List.cons_append, List.nil_append] at hstep ⊢
        rw [hstep]
        have htake : (b :: (t₂' ++ m)).takeWhile Char.isLower = b :: t₂' := by
          have h1 : ((b :: t₂') ++ m).takeWhile Char.isLower =
              (b :: t₂') ++ m.takeWhile Char.isLower :=
            takeWhile_append_of_all hlow₂
          have h2 : m.takeWhile Char.isLower = [] := by
            rcases hm with hm0 | ⟨u, m', hm1, hm2⟩
            · rw [hm0]; rfl
            · rw [hm1, List.takeWhile_cons_of_neg]
              rw [not_lower_of_upper hm2]
              simp
          simp only [List.cons_append] at h1
          rw [h1, h2, List.append_nil]
        have hdrop : (b :: (t₂' ++ m)).dropWhile Char.isLower = m := by
          have h1 : ((b :: t₂') ++ m).dropWhile Char.isLower =
              m.dropWhile Char.isLower :=
            dropWhile_append_of_all hlow₂
          have h2 : m.dropWhile Char.isLower = m := by
            rcases hm with hm0 | ⟨u, m', hm1, hm2⟩
            · rw [hm0]; rfl
            · rw [hm1, List.dropWhile_cons_of_neg]
              rw [not_lower_of_upper hm2]
              simp
          simp only [List.cons_append] at h1
          rw [h1, h2]
        rw [htake, hdrop]
        simp
    | cons a' t₁'' =>
      subst ht₁'
      have ha' : a'.isLower = true := hlow a' (by simp)
      have step : snekSub1 (a :: ((a' :: t₁'') ++ u₂ :: t₂ ++ m)) =
          a :: snekSub1 ((a' :: t₁'') ++ u₂ :: t₂ ++ m) := by
        apply snekSub1_cons_nomatch
        intro d e rest heq hcon
        have h3 := heq
        simp only [List.cons_append] at h3
        injection h3 with h4 h5
        rw [← h4] at hcon
        have := not_upper_of_lower ha'
        rw [hcon.2.1] at this
        cases this
      have hgoal : (a :: (a' :: t₁'')) ++ u₂ :: t₂ ++ m =
          a :: ((a' :: t₁'') ++ u₂ :: t₂ ++ m) := by simp
      rw [hgoal, step]
      rw [ih u₂ t₂ m (by simp) (fun c hc => hlow c (List.mem_cons_of_mem a hc)) hu ht₂
        hlow₂ hm]
      simp

/-- `snekSub1` is the identity on a single camel segment. -/
theorem snekSub1_seg {s : List Char} (h : isCamelSeg s = true) : snekSub1 s = s := by
  obtain ⟨u, t, rfl, hu, htne, hlow⟩ := isCamelSeg_elim h
  rw [snekSub1_cons_nomatch]
  · rw [snekSub1_all_lower t hlow]
  · intro d e rest heq hcon
    have hd : d ∈ t := by rw [heq]; simp
    have := not_upper_of_lower (hlow d hd)
    rw [hcon.2.1] at this
    cases this

/-- The flattening of a good segment list is empty or starts with an
uppercase letter. -/
theorem flatten_good_head : ∀ (segs : List (List Char)),
    (∀ s ∈ segs, isCamelSeg s = true) →
    segs.flatten = [] ∨ ∃ u m', segs.flatten = u :: m' ∧ u.isUpper = true := by
  intro segs hall
  cases segs with
  | nil => left; rfl
  | cons s r =>
    obtain ⟨u, t, hs, hu, _, _⟩ := isCamelSeg_elim (hall s (by simp))
    right
    exact ⟨u, t ++ r.flatten, by rw [List.flatten_cons, hs]; simp, hu⟩

/-- `snekSub1` on a concatenation of camel segments: underscores are
inserted pairwise (before the second of every two consecutive segments;
the scan consumes each matched segment whole). -/
theorem snekSub1_flatten : ∀ (segs : List (List Char)),
    (∀ s ∈ segs, isCamelSeg s = true) →
    snekSub1 segs.flatten = sub1Spec segs := by
  intro segs
  induction segs using sub1Spec.induct with
  | case1 => intro _; rw [List.flatten_nil, sub1Spec, snekSub1]
  | case2 s =>
    intro hall
    rw [sub1Spec, List.flatten_cons, List.flatten_nil, List.append_nil]
    exact snekSub1_seg (hall s (by simp))
  | case3 s₁ s₂ r ih =>
    intro hall
    obtain ⟨u₁, t₁, hs₁, hu₁, ht₁ne, hlow₁⟩ := isCamelSeg_elim (hall s₁ (by simp))
    obtain ⟨u₂, t₂, hs₂, hu₂, ht₂ne, hlow₂⟩ := isCamelSeg_elim (hall s₂ (by simp))
    have hallr : ∀ s ∈ r, isCamelSeg s = true := fun s hs =>
      hall s (by simp [hs])
    have hm := flatten_good_head r hallr
    rw [sub1Spec, List.flatten_cons, List.flatten_cons, hs₁, hs₂]
    have hshape : (u₁ :: t₁) ++ ((u₂ :: t₂) ++ r.flatten) =
        u₁ :: (t₁ ++ u₂ :: t₂ ++ r.flatten) := by simp
    rw [hshape]
    have hstep : snekSub1 (u₁ :: (t₁ ++ u₂ :: t₂ ++ r.flatten)) =
        u₁ :: snekSub1 (t₁ ++ u₂ :: t₂ ++ r.flatten) := by
      apply snekSub1_cons_nomatch
      intro d e rest heq hcon
      have hd : d ∈ t₁ := by
        cases t₁ with
        | nil => exact absurd rfl ht₁ne
        | cons b t₁' =>
          simp only [List.cons_append] at heq
          injection heq with h4 h5
          rw [← h4]
          simp
      have := not_upper_of_lower (hlow₁ d hd)
      rw [hcon.2.1] at this
      cases this
    rw [hstep]
    rw [snekSub1_seg_step t₁ u₂ t₂ r.flatten ht₁ne hlow₁ hu₂ ht₂ne hlow₂ hm]
    rw [ih hallr]
    simp

/-- `snekSub2` steps over a position where the pattern cannot match. -/
theorem snekSub2_cons_nomatch (c : Char) (l : List Char)
    (h : ∀ d rest, l = d :: rest →
      ¬((c.isLower || c.isDigit) = true ∧ d.isUpper = true)) :
    snekSub2 (c :: l) = c :: snekSub2 l := by
  cases l with
  | nil => rw [snekSub2, snekSub2]
  | cons d rest =>
    rw [snekSub2, if_neg]
    intro hcon
    exact h d rest rfl ⟨hcon.1, hcon.2⟩

/-- `snekSub2` fires at a lower-upper (or digit-upper) boundary. -/
theorem snekSub2_cons_match (c d : Char) (rest : List Char)
    (hc : (c.isLower || c.isDigit) = true) (hd : d.isUpper = true) :
    snekSub2 (c :: d :: rest) = c :: '_' :: d :: snekSub2 rest := by
  rw [snekSub2, if_pos ⟨hc, hd⟩]

/-- `snekSub2` is the identity on all-lowercase text. -/
theorem snekSub2_all_lower : ∀ (t : List Char), (∀ c ∈ t, c.isLower = true) →
    snekSub2 t = t := by
  intro t
  induction t with
  | nil => intro _; rw [snekSub2]
  | cons c t' ih =>
    intro h
    rw [snekSub2_cons_nomatch]
    · rw [ih fun d hd => h d (List.mem_cons_of_mem c hd)]
    · intro d rest heq hcon
      have hd : d ∈ t' := by rw [heq]; simp
      have := not_upper_of_lower (h d (List.mem_cons_of_mem c hd))
      rw [hcon.2] at this
      cases this

/-- `snekSub2` walks a nonempty lowercase run into an uppercase letter,
inserting one underscore. -/
theorem snekSub2_run_upper : ∀ (t : List Char) (u : Char) (m : List Char),
    t ≠ [] → (∀ c ∈ t, c.isLower = true) → u.isUpper = true →
    snekSub2 (t ++ u :: m) = t ++ '_' :: u :: snekSub2 m := by
  intro t
  induction t with
  | nil => intro u m hne; exact absurd rfl hne
  | cons a t' ih =>
    intro u m _ hlow hu
    have ha : a.isLower = true := hlow a (by simp)
    cases ht' : t' with
    | nil =>
      subst ht'
      simp only [List.cons_append, List.nil_append]
      rw [snekSub2_cons_match a u m (by rw [ha]; rfl) hu]
    | cons a' t'' =>
      subst ht'
      have ha' : a'.isLower = true := hlow a' (by simp)
      have step : snekSub2 (a :: ((a' :: t'') ++ u :: m)) =
          a :: snekSub2 ((a' :: t'') ++ u :: m) := by
        apply snekSub2_cons_nomatch
        intro d rest heq hcon
        have h3 := heq
        simp only [List.cons_append] at h3
        injection h3 with h4 h5
        rw [← h4] at hcon
        have := not_upper_of_lower ha'
        rw [hcon.2] at this
        cases this
      have hshape : (a :: (a' :: t'')) ++ u :: m = a :: ((a' :: t'') ++ u :: m) := by
        simp
      rw [hshape, step]
      rw [ih u m (by simp) (fun c hc => hlow c (List.mem_cons_of_mem a hc)) hu]
      simp

/-- `snekSub2` walks a nonempty lowercase run into an underscore without
inserting anything. -/
theorem snekSub2_run_underscore : ∀ (t : List Char) (m : List Char),
    t ≠ [] → (∀ c ∈ t, c.isLower = true) →
    snekSub2 (t ++ '_' :: m) = t ++ snekSub2 ('_' :: m) := by
  intro t
  induction t with
  | nil => intro m hne; exact absurd rfl hne
  | cons a t' ih =>
    intro m _ hlow
    have ha : a.isLower = true := hlow a (by simp)
    cases ht' : t' with
    | nil =>
      subst ht'
      simp only [List.cons_append, List.nil_append]
      apply snekSub2_cons_nomatch
      intro d rest heq hcon
      injection heq with h4 h5
      rw [← h4] at hcon
      have hup : ('_').isUpper = false := by decide
      rw [hcon.2] at hup
      cases hup
    | cons a' t'' =>
      subst ht'
      have ha' : a'.isLower = true := hlow a' (by simp)
      have step : snekSub2 (a :: ((a' :: t'') ++ '_' :: m)) =
          a :: snekSub2 ((a' :: t'') ++ '_' :: m) := by
        apply snekSub2_cons_nomatch
        intro d rest heq hcon
        have h3 := heq
        simp only [List.cons_append] at h3
        injection h3 with h4 h5
        rw [← h4] at hcon
        have := not_upper_of_lower ha'
        rw [hcon.2] at this
        cases this
      have hshape : (a :: (a' :: t'')) ++ '_' :: m = a :: ((a' :: t'') ++ '_' :: m) := by
        simp
      rw [hshape, step]
      rw [ih m (by simp) fun c hc => hlow c (List.mem_cons_of_mem a hc)]
      simp

/-- `snekSub2` steps over the uppercase head of a camel segment. -/
theorem snekSub2_upper_head (u : Char) (l : List Char) (hu : u.isUpper = true) :
    snekSub2 (u :: l) = u :: snekSub2 l := by
  apply snekSub2_cons_nomatch
  intro d rest heq hcon
  have h1 := not_lower_of_upper hu
  have h2 := not_digit_of_upper hu
  rw [h1, h2] at hcon
  cases hcon.1

/-- `snekSub2` steps over an underscore. -/
theorem snekSub2_underscore_head (l : List Char) :
    snekSub2 ('_' :: l) = '_' :: snekSub2 l := by
  apply snekSub2_cons_nomatch
  intro d rest heq hcon
  have h1 : ('_').isLower = false := by decide
  have h2 : ('_').isDigit = false := by decide
  rw [h1, h2] at hcon
  cases hcon.1

/-- `underJoin` unfolding on a cons. -/
theorem underJoin_cons (g : List Char) (r : List (List Char)) :
    underJoin (g :: r) = '_' :: g ++ underJoin r := by
  rw [underJoin, underJoin]
  simp

/-- `underJoin` of the empty list. -/
theorem underJoin_nil : underJoin ([] : List (List Char)) = [] := by
  rw [underJoin]
  simp

/-- `snekSub2` distributes over a camel segment followed by the
`snekSub1` image of further segments, completing the underscore
separation. -/
theorem snekSub2_seg_chain : ∀ (r : List (List Char)) (s : List Char),
    isCamelSeg s = true → (∀ x ∈ r, isCamelSeg x = true) →
    snekSub2 (s ++ sub1Spec r) = s ++ underJoin r := by
  intro r
  induction r using sub1Spec.induct with
  | case1 =>
    intro s hs _
    obtain ⟨u, t, rfl, hu, htne, hlow⟩ := isCamelSeg_elim hs
    rw [sub1Spec, List.append_nil]
    rw [show (u :: t : List Char) = u :: t from rfl]
    rw [snekSub2_upper_head u t hu, snekSub2_all_lower t hlow]
    rw [underJoin_nil]
    simp
  | case2 g =>
    intro s hs hall
    obtain ⟨u, t, rfl, hu, htne, hlow⟩ := isCamelSeg_elim hs
    obtain ⟨ug, tg, hg, hug, htgne, hlowg⟩ := isCamelSeg_elim (hall g (by simp))
    rw [sub1Spec, hg]
    have hshape : (u :: t) ++ ug :: tg = u :: (t ++ ug :: tg) := by simp
    rw [hshape, snekSub2_upper_head _ _ hu]
    rw [snekSub2_run_upper t ug tg htne hlow hug]
    rw [snekSub2_all_lower tg hlowg]
    rw [underJoin_cons, underJoin_nil]
    simp
  | case3 g h r' ih =>
    intro s hs hall
    obtain ⟨u, t, rfl, hu, htne, hlow⟩ := isCamelSeg_elim hs
    obtain ⟨ug, tg, hg, hug, htgne, hlowg⟩ := isCamelSeg_elim (hall g (by simp))
    rw [sub1Spec, hg]
    have hshape : (u :: t) ++ ((ug :: tg) ++ '_' :: h ++ sub1Spec r') =
        u :: (t ++ ug :: (tg ++ '_' :: (h ++ sub1Spec r'))) := by simp
    rw [hshape, snekSub2_upper_head _ _ hu]
    rw [snekSub2_run_upper t ug (tg ++ '_' :: (h ++ sub1Spec r')) htne hlow hug]
    rw [snekSub2_run_underscore tg (h ++ sub1Spec r') htgne hlowg]
    rw [snekSub2_underscore_head]
    rw [ih h (hall h (by simp)) fun x hx => hall x (by simp [hx])]
    rw [underJoin_cons, underJoin_cons]
    simp

/-- The two substitutions together turn a concatenation of camel segments
into the fully underscore-separated concatenation. -/
theorem snek_subs_flatten (s : List Char) (r : List (List Char))
    (hs : isCamelSeg s = true) (hr : ∀ x ∈ r, isCamelSeg x = true) :
    snekSub2 (snekSub1 ((s :: r).flatten)) = s ++ underJoin r := by
  have hall : ∀ x ∈ s :: r, isCamelSeg x = true := by
    intro x hx
    rcases List.mem_cons.mp hx with he | hm
    · subst he; exact hs
    · exact hr x hm
  rw [snekSub1_flatten (s :: r) hall]
  cases r with
  | nil =>
    rw [sub1Spec]
    obtain ⟨u, t, rfl, hu, htne, hlow⟩ := isCamelSeg_elim hs
    rw [snekSub2_upper_head u t hu, snekSub2_all_lower t hlow]
    rw [underJoin_nil]
    simp
  | cons s₂ r' =>
    rw [sub1Spec]
    obtain ⟨u, t, rfl, hu, htne, hlow⟩ := isCamelSeg_elim hs
    have hshape : (u :: t) ++ '_' :: s₂ ++ sub1Spec r' =
        u :: (t ++ '_' :: (s₂ ++ sub1Spec r')) := by simp
    rw [hshape, snekSub2_upper_head _ _ hu]
    rw [snekSub2_run_underscore t (s₂ ++ sub1Spec r') htne hlow]
    rw [snekSub2_underscore_head]
    rw [snekSub2_seg_chain r' s₂ (hr s₂ (by simp)) fun x hx => hr x (by simp [hx])]
    rw [underJoin_cons]
    simp

/-- Lowercasing fixes all-lowercase text. -/
theorem map_toLower_of_lower : ∀ (t : List Char), (∀ c ∈ t, c.isLower = true) →
    t.map Char.toLower = t := by
  intro t
  induction t with
  | nil => intro _; rfl
  | cons c t' ih =>
    intro h
    rw [List.map_cons, toLower_of_lower (h c (by simp)),
      ih fun d hd => h d (List.mem_cons_of_mem c hd)]

/-- The lowercased form of a camel segment is nonempty, all-lowercase. -/
theorem lowered_seg_lower {s : List Char} (h : isCamelSeg s = true) :
    ∀ c ∈ s.map Char.toLower, c.isLower = true := by
  obtain ⟨u, t, rfl, hu, htne, hlow⟩ := isCamelSeg_elim h
  intro c hc
  rw [List.map_cons, map_toLower_of_lower t hlow] at hc
  rcases List.mem_cons.mp hc with he | hm
  · subst he; exact toLower_isLower_of_upper hu
  · exact hlow c hm

/-- All-lowercase text contains no underscore. -/
theorem no_underscore_of_lower {l : List Char} (h : ∀ c ∈ l, c.isLower = true) :
    ('_' : Char) ∉ l := by
  intro hm
  exact lower_ne_underscore (h '_' hm) rfl

/-- Python `islower` holds for nonempty all-lowercase text. -/
theorem pyIsLower_of_lower {l : List Char} (hne : l ≠ [])
    (h : ∀ c ∈ l, c.isLower = true) : pyIsLower l = true := by
  rw [pyIsLower, Bool.and_eq_true]
  constructor
  · cases l with
    | nil => exact absurd rfl hne
    | cons c l' =>
      rw [List.any_cons]
      rw [h c (by simp)]
      simp
  · rw [List.all_eq_true]
    intro c hc
    rw [not_upper_of_lower (h c hc)]
    rfl

/-- Capitalizing the lowercased form of a camel segment restores it. -/
theorem pyCapitalize_lowered {s : List Char} (h : isCamelSeg s = true) :
    pyCapitalize (s.map Char.toLower) = s := by
  obtain ⟨u, t, rfl, hu, htne, hlow⟩ := isCamelSeg_elim h
  rw [List.map_cons, map_toLower_of_lower t hlow, pyCapitalize,
    toUpper_toLower_of_upper hu, map_toLower_of_lower t hlow]

/-- Lowercasing distributes over `underJoin`, fixing the underscores. -/
theorem map_toLower_underJoin : ∀ (r : List (List Char)),
    (underJoin r).map Char.toLower = underJoin (r.map fun g => g.map Char.toLower) := by
  intro r
  induction r with
  | nil => rw [underJoin_nil]; rfl
  | cons g r' ih =>
    rw [underJoin_cons, List.map_cons, underJoin_cons]
    rw [show ('_' :: g ++ underJoin r').map Char.toLower =
      Char.toLower '_' :: g.map Char.toLower ++ (underJoin r').map Char.toLower from by
        simp]
    rw [show Char.toLower '_' = '_' from by decide, ih]

/-- `pySplit` on separator-free text yields a single piece. -/
theorem pySplit_no_sep : ∀ (a : List Char), ('_' : Char) ∉ a →
    pySplit '_' a = [a] := by
  intro a
  induction a with
  | nil => intro _; rfl
  | cons c a' ih =>
    intro h
    rw [pySplit]
    rw [ih fun hm => h (List.mem_cons_of_mem c hm)]
    have hc : ¬ c = '_' := fun he => h (by simp [he])
    simp [hc]

/-- `pySplit` separates at the first underscore after a separator-free
prefix. -/
theorem pySplit_sep_append : ∀ (a b : List Char), ('_' : Char) ∉ a →
    pySplit '_' (a ++ '_' :: b) = a :: pySplit '_' b := by
  intro a
  induction a with
  | nil =>
    intro b _
    rw [List.nil_append, pySplit]
    cases hb : pySplit '_' b with
    | nil => simp
    | cons p ps => simp
  | cons c a' ih =>
    intro b h
    rw [List.cons_append, pySplit]
    rw [ih b fun hm => h (List.mem_cons_of_mem c hm)]
    have hc : ¬ c = '_' := fun he => h (by simp [he])
    simp [hc]

/-- `pySplit` recovers the segments of an underscore-joined list. -/
theorem pySplit_underJoin : ∀ (r : List (List Char)) (a : List Char),
    ('_' : Char) ∉ a → (∀ g ∈ r, ('_' : Char) ∉ g) →
    pySplit '_' (a ++ underJoin r) = a :: r := by
  intro r
  induction r with
  | nil =>
    intro a ha _
    rw [underJoin_nil, List.append_nil]
    exact pySplit_no_sep a ha
  | cons g r' ih =>
    intro a ha hall
    rw [underJoin_cons]
    rw [show a ++ ('_' :: g ++ underJoin r') = a ++ '_' :: (g ++ underJoin r') from by
      simp]
    rw [pySplit_sep_append a (g ++ underJoin r') ha]
    rw [ih g (hall g (by simp)) fun x hx => hall x (by simp [hx])]

/-- C6: on every identifier following the title-case-segment convention —
a nonempty concatenation of camel segments, each an uppercase letter
followed by a nonempty run of lowercase letters — `to_camel_case` inverts
`to_snek_case`: the snake/camel conversion pair is a stable round trip. -/
theorem camel_snake_roundtrip (segs : List (List Char)) (hne : segs ≠ [])
    (hall : ∀ s ∈ segs, isCamelSeg s = true) :
    to_camel_case (to_snek_case ⟨segs.flatten⟩) = ⟨segs.flatten⟩ := by
  cases segs with
  | nil => exact absurd rfl hne
  | cons s r =>
    have hs : isCamelSeg s = true := hall s (by simp)
    have hr : ∀ x ∈ r, isCamelSeg x = true := fun x hx => hall x (by simp [hx])
    rw [to_snek_case, to_camel_case]
    rw [show (String.mk ((s :: r).flatten)).data = (s :: r).flatten from rfl]
    rw [snek_subs_flatten s r hs hr]
    rw [show (String.mk ((s ++ underJoin r).map Char.toLower)).data =
      (s ++ underJoin r).map Char.toLower from rfl]
    rw [List.map_append, map_toLower_underJoin]
    cases r with
    | nil =>
      rw [show (([] : List (List Char)).map fun g => g.map Char.toLower) = [] from rfl]
      rw [underJoin_nil, List.append_nil]
      rw [camelChars]
      rw [if_neg (no_underscore_of_lower (lowered_seg_lower hs))]
      obtain ⟨u, t, hsu, _, _, _⟩ := isCamelSeg_elim hs
      rw [if_pos (pyIsLower_of_lower (by rw [hsu]; simp) (lowered_seg_lower hs))]
      rw [pyCapitalize_lowered hs]
      simp
    | cons s₂ r' =>
      rw [camelChars]
      rw [if_pos (by
        apply List.mem_append_right
        rw [List.map_cons, underJoin_cons]
        simp)]
      rw [pySplit_underJoin ((s₂ :: r').map fun g => g.map Char.toLower)
        (s.map Char.toLower)
        (no_underscore_of_lower (lowered_seg_lower hs))
        (by
          intro g hg
          rw [List.mem_map] at hg
          obtain ⟨g₀, hg₀, rfl⟩ := hg
          exact no_underscore_of_lower (lowered_seg_lower (hr g₀ hg₀)))]
      rw [show (s.map Char.toLower :: (s₂ :: r').map fun g => g.map Char.toLower) =
        ((s :: s₂ :: r').map fun g => g.map Char.toLower) from rfl]
      rw [show ∀ (L : List (List Char)),
          ((L.map fun g => g.map Char.toLower).map pyCapitalize) =
            L.map (fun g => pyCapitalize (g.map Char.toLower)) from fun L => by
        rw [List.map_map]; rfl]
      rw [List.map_congr_left (fun g hg => pyCapitalize_lowered (hall g hg))]
      simp

/-- Witness for `camel_snake_roundtrip` at the concrete identifier
`FooBar`. -/
theorem camel_snake_roundtrip_witness :
    to_camel_case (to_snek_case ⟨[['F', 'o', 'o'], ['B', 'a', 'r']].flatten⟩) =
      ⟨[['F', 'o', 'o'], ['B', 'a', 'r']].flatten⟩ :=
  camel_snake_roundtrip [['F', 'o', 'o'], ['B', 'a', 'r']] (by decide) (by decide)

/-- Witness for `camel_collision_fails_after_prefix` at the concrete
clashing input. -/
theorem camel_collision_fails_after_prefix_witness :
    (rustEmit psCamelClash).2.isSome = true ∧
    (rustEmit psCamelClash).1 = rustEmitPre psCamelClash ∧
    (rustEmit psCamelClash).1 ≠ [] :=
  camel_collision_fails_after_prefix psCamelClash
    (GSym.str "foo_bar") (GSym.str "FooBar") "FooBar"
    (by simp [rustNonterminals, psCamelClash, orderedDedup, orderedDedupAux])
    (by simp [rustNonterminals, psCamelClash, orderedDedup, orderedDedupAux])
    (by decide)
    (by simp [nonterminal_to_camel, nonterminal_to_snake, to_snek_case, snekSub1,
      snekSub2, to_camel_case, camelChars, pySplit, pyCapitalize, pyIsLower,
      Except.map])
    (by simp [nonterminal_to_camel, nonterminal_to_snake, to_snek_case, snekSub1,
      snekSub2, to_camel_case, camelChars, pySplit, pyCapitalize, pyIsLower,
      Except.map])
